import Mathlib

/-!
Verification of the hc-http-gw HTTP gateway against its natural-language
specification.  The Rust sources are shallowly embedded: pure functions
become Lean functions, stateful operations become explicit state passing,
and the outcomes of remote calls (websocket connects, upstream executions)
are supplied by explicit environment records so that the retry and pooling
control flow of the source can be analysed exactly.
-/

namespace HcHttpGw

/-! ## Error model

Embeds `holochain_client::ConductorApiError` (only the constructors the
gateway discriminates on are kept separate; all remaining constructors are
collapsed into `otherApi`) and `HcHttpGatewayError` from `src/error.rs`.
-/

/-- Conductor API errors.  The gateway's control flow only ever tests
whether an error is `WebsocketError`; the remaining variants are collapsed
into `otherApi`. -/
inductive ConductorApiError where
  | websocketError (msg : String)
  | otherApi (msg : String)
deriving DecidableEq, Repr

/-- The gateway error type, `HcHttpGatewayError` in `src/error.rs`.
Variants not discriminated on by the embedded code paths keep their
payload as a plain message string. -/
inductive HcErr where
  | configurationError (msg : String)
  | requestMalformed (msg : String)
  | internalError (msg : String)
  | unauthorizedFunction (appId zomeName fnName : String)
  | holochainError (e : ConductorApiError)
  | upstreamUnavailable
deriving DecidableEq, Repr

/-! ## Configuration (`src/config.rs`) -/

/-- A zome function, `ZomeFn` in `src/config.rs`. -/
structure ZomeFn where
  zomeName : String
  fnName : String
deriving DecidableEq, Repr

/-- `AllowedFns` in `src/config.rs`: either a restricted set of zome
functions or all functions.  The `HashSet` is embedded as a list; only
membership matters. -/
inductive AllowedFns where
  | restricted (fns : List ZomeFn)
  | all
deriving DecidableEq, Repr

/-- Association-list lookup, embedding `HashMap::get`.  Keys are unique in
all states the gateway constructs. -/
def lookupKey {α : Type} (m : List (String × α)) (k : String) : Option α :=
  match m.find? (fun e => e.1 == k) with
  | some e => some e.2
  | none => none

/-- Embeds `HashMap::contains_key`. -/
def containsKey {α : Type} (m : List (String × α)) (k : String) : Bool :=
  (lookupKey m k).isSome

/-- `Configuration` in `src/config.rs`.  `allowed_fns` is embedded as an
association list; the admin address is kept abstract as a string. -/
structure Configuration where
  adminSocketAddr : String
  payloadLimitBytes : Nat
  allowedAppIds : List String
  allowedFns : List (String × AllowedFns)
  maxAppConnections : Nat
  zomeCallTimeoutMs : Nat
deriving DecidableEq, Repr

/-- `Configuration::is_app_allowed`. -/
def Configuration.isAppAllowed (cfg : Configuration) (appId : String) : Bool :=
  cfg.allowedAppIds.contains appId

/-- `Configuration::get_allowed_functions`. -/
def Configuration.getAllowedFunctions (cfg : Configuration) (appId : String) :
    Option AllowedFns :=
  lookupKey cfg.allowedFns appId

/-- `Configuration::is_function_allowed` (src/config.rs lines 158-172):
false if the app has no entry in `allowed_fns`; true if the entry is
`All`; otherwise membership of the zome/function pair in the restricted
set. -/
def Configuration.isFunctionAllowed (cfg : Configuration)
    (appId zomeName fnName : String) : Bool :=
  match cfg.getAllowedFunctions appId with
  | none => false
  | some .all => true
  | some (.restricted zomeFns) =>
      zomeFns.contains { zomeName := zomeName, fnName := fnName }

/-! ### Configuration parsing (`Configuration::try_new`) -/

/-- `ConfigParseError` in `src/config.rs`. -/
inductive ConfigParseError where
  | intParseError (msg : String)
  | other (msg : String)
deriving DecidableEq, Repr

/-- Value of a list of decimal digit characters, most significant first;
`none` when the list is empty or a character is not a digit. -/
def digitsVal : List Char → Option Nat
  | [] => none
  | [c] => if c.isDigit then some (c.toNat - 48) else none
  | c :: rest =>
      if c.isDigit then
        match digitsVal rest with
        | some n => some ((c.toNat - 48) * 10 ^ rest.length + n)
        | none => none
      else none

/-- Embeds Rust `str::parse::<u32>()`: an optional leading plus sign,
one or more ASCII digits, value within the u32 range. -/
def parseU32 (s : String) : Option Nat :=
  let cs := match s.data with
    | '+' :: rest => rest
    | cs => cs
  match digitsVal cs with
  | some n => if n < 2 ^ 32 then some n else none
  | none => none

/-- Embeds Rust `str::parse::<u64>()`. -/
def parseU64 (s : String) : Option Nat :=
  let cs := match s.data with
    | '+' :: rest => rest
    | cs => cs
  match digitsVal cs with
  | some n => if n < 2 ^ 64 then some n else none
  | none => none

/-- Default payload limit, `DEFAULT_PAYLOAD_LIMIT_BYTES`. -/
def DEFAULT_PAYLOAD_LIMIT_BYTES : Nat := 10 * 1024

/-- Default connection bound, `DEFAULT_MAX_APP_CONNECTIONS`. -/
def DEFAULT_MAX_APP_CONNECTIONS : Nat := 50

/-- Default zome call timeout in milliseconds, `DEFAULT_ZOME_CALL_TIMEOUT`. -/
def DEFAULT_ZOME_CALL_TIMEOUT_MS : Nat := 10000

/-- Drop leading and trailing whitespace, embedding Rust `str::trim`. -/
def trimChars (cs : List Char) : List Char :=
  ((cs.dropWhile Char.isWhitespace).reverse.dropWhile Char.isWhitespace).reverse

/-- Split on commas, embedding Rust `str::split(',')`: the empty input
yields one empty piece. -/
def splitComma : List Char → List (List Char)
  | [] => [[]]
  | c :: rest =>
      if c = ',' then [] :: splitComma rest
      else
        match splitComma rest with
        | [] => [[c]]
        | piece :: pieces => (c :: piece) :: pieces

/-- `AllowedAppIds::from_str`: split the trimmed input on commas, trim
each element, drop empties.  The Rust `HashSet` collapse of duplicates is
embedded with `eraseDups`; only membership matters downstream. -/
def allowedAppIdsFromStr (s : String) : List String :=
  ((splitComma (trimChars s.data)).filterMap (fun part =>
    let trimmed := trimChars part
    if trimmed.isEmpty then none else some (String.mk trimmed))).eraseDups

/-- `Configuration::try_new` (src/config.rs lines 63-108): parse the
numeric fields (empty strings fall back to the defaults), parse the
allowed app ids, and fail with a `ConfigParseError` when some allowed app
id has no key in `allowed_fns`. -/
def Configuration.tryNew (adminSocketAddr : String) (payloadLimitBytes : String)
    (allowedAppIds : String) (allowedFns : List (String × AllowedFns))
    (maxAppConnections : String) (zomeCallTimeout : String) :
    Except ConfigParseError Configuration :=
  match (if payloadLimitBytes.isEmpty then
      Except.ok DEFAULT_PAYLOAD_LIMIT_BYTES
    else match parseU32 payloadLimitBytes with
      | some n => Except.ok n
      | none => Except.error (ConfigParseError.intParseError payloadLimitBytes)) with
  | .error e => .error e
  | .ok payloadLimit =>
    match (allowedAppIdsFromStr allowedAppIds).find?
        (fun appId => !containsKey allowedFns appId) with
    | some appId => .error (.other (appId ++ " is not present in allowed_fns"))
    | none =>
      match (if maxAppConnections.isEmpty then
          Except.ok DEFAULT_MAX_APP_CONNECTIONS
        else match parseU32 maxAppConnections with
          | some n => Except.ok n
          | none =>
              Except.error (ConfigParseError.intParseError maxAppConnections)) with
      | .error e => .error e
      | .ok maxConns =>
        match (if zomeCallTimeout.isEmpty then
            Except.ok DEFAULT_ZOME_CALL_TIMEOUT_MS
          else match parseU64 zomeCallTimeout with
            | some n => Except.ok n
            | none =>
                Except.error (ConfigParseError.intParseError zomeCallTimeout)) with
        | .error e => .error e
        | .ok timeout =>
            .ok {
              adminSocketAddr := adminSocketAddr
              payloadLimitBytes := payloadLimit
              allowedAppIds := allowedAppIdsFromStr allowedAppIds
              allowedFns := allowedFns
              maxAppConnections := maxConns
              zomeCallTimeoutMs := timeout
            }

/-! ## App connection pool (`src/holochain/app_conn_pool.rs`)

The pool's `HashMap<InstalledAppId, AppWebsocketWithState>` is embedded as
an association list whose order is the map's iteration order; a vacant
insert appends at the end (one admissible iteration order of the Rust
`HashMap`, whose order is unspecified).  Websocket handles are abstract
numeric identifiers.  The outcomes of `attempt_connect_app_ws`,
`Timestamp::now` and the caller-supplied `execute` closure are supplied
per attempt by an environment record.
-/

/-- `AppWebsocketWithState`: an app websocket handle together with the
time at which the connection was opened. -/
structure AppWebsocketWithState where
  appWs : Nat
  openedAt : Nat
deriving DecidableEq, Repr

/-- The pool's client map in iteration order. -/
abbrev PoolState := List (String × AppWebsocketWithState)

/-- Environment for a pool `call` invocation: per attempt index, the
outcome of `attempt_connect_app_ws`, the `Timestamp::now()` value used at
insertion, and the result of the caller's `execute` closure on a given
websocket handle. -/
structure PoolEnv (T : Type) where
  connect : Nat → Except HcErr Nat
  now : Nat → Nat
  exec : Nat → Nat → Except HcErr T

/-- Embeds `HashMap::remove` on the iteration-ordered map: drop the unique
entry with the given key. -/
def eraseKey (appId : String) (st : PoolState) : PoolState :=
  List.eraseP (fun e => e.1 == appId) st

/-- `AppConnPool::remove_app_client` (src/holochain/app_conn_pool.rs
lines 162-164). -/
def removeAppClient (appId : String) (st : PoolState) : PoolState :=
  eraseKey appId st

/-- Embeds `iter().min_by_key(|(_, v)| v.opened_at)`: the first entry in
iteration order whose `opened_at` is minimal (Rust
`Iterator::min_by_key` returns the first of several equally minimal
elements). -/
def minOpenedEntry : PoolState → Option (String × AppWebsocketWithState)
  | [] => none
  | e :: rest =>
      match minOpenedEntry rest with
      | none => some e
      | some m => if e.2.openedAt ≤ m.2.openedAt then some e else some m

/-- The key of the entry selected for eviction,
`.min_by_key(..).map(|(k, _)| k.clone())`. -/
def minOpenedAtKey (st : PoolState) : Option String :=
  (minOpenedEntry st).map (fun e => e.1)

/-- The eviction step of `get_or_connect_app_client` (lines 142-156):
when the map holds more entries than `max_app_connections`, remove the
entry selected by `minOpenedAtKey`. -/
def evictIfOver (maxConns : Nat) (st : PoolState) : PoolState :=
  if st.length > maxConns then
    match minOpenedAtKey st with
    | some victim => eraseKey victim st
    | none => st
  else st

/-- `AppConnPool::get_or_connect_app_client` (lines 111-159) at attempt
index `i`: return a pooled handle when one exists for the app id;
otherwise attempt to connect (outcome given by the environment), insert
the new entry with `opened_at = now`, and evict when the map exceeds
`max_app_connections`. -/
def getOrConnectAppClient {T : Type} (env : PoolEnv T) (maxConns : Nat)
    (i : Nat) (appId : String) (st : PoolState) :
    PoolState × Except HcErr Nat :=
  match lookupKey st appId with
  | some client => (st, .ok client.appWs)
  | none =>
      match env.connect i with
      | .error e => (st, .error e)
      | .ok ws =>
          let st1 : PoolState := st ++ [(appId, AppWebsocketWithState.mk ws (env.now i))]
          (evictIfOver maxConns st1, .ok ws)

/-- Whether a gateway error is a transport-level websocket error, the
discrimination `Err(HcHttpGatewayError::HolochainError(
ConductorApiError::WebsocketError(e)))` of the `call` loop. -/
def isWsErr : HcErr → Bool
  | .holochainError (.websocketError _) => true
  | _ => false

/-- The retry loop body of `AppConnPool::call` (lines 59-104).  `fuel`
counts the remaining iterations of `for _ in 0..3`; `i` is the attempt
index.  A connection error other than `UpstreamUnavailable` and an
`execute` error other than a websocket error are returned immediately; a
websocket error from `execute` removes the pool entry and retries.  The
returned number counts the attempts performed. -/
def poolCallAux {T : Type} (env : PoolEnv T) (maxConns : Nat)
    (appId : String) : Nat → Nat → PoolState →
    PoolState × Except HcErr T × Nat
  | 0, _, st => (st, .error .upstreamUnavailable, 0)
  | fuel + 1, i, st =>
      match getOrConnectAppClient env maxConns i appId st with
      | (st1, .error e) =>
          if e = .upstreamUnavailable then
            let r := poolCallAux env maxConns appId fuel (i + 1) st1
            (r.1, r.2.1, r.2.2 + 1)
          else (st1, .error e, 1)
      | (st1, .ok ws) =>
          match env.exec i ws with
          | .ok response => (st1, .ok response, 1)
          | .error e =>
              if isWsErr e then
                let st2 := removeAppClient appId st1
                let r := poolCallAux env maxConns appId fuel (i + 1) st2
                (r.1, r.2.1, r.2.2 + 1)
              else (st1, .error e, 1)

/-- `AppConnPool::call`: drive the connection with up to three attempts. -/
def poolCall {T : Type} (env : PoolEnv T) (maxConns : Nat) (appId : String)
    (st : PoolState) : PoolState × Except HcErr T × Nat :=
  poolCallAux env maxConns appId 3 0 st

/-! ## Admin connection (`src/holochain/admin_conn.rs`) -/

/-- The admin websocket URL, `url2::Url2` reduced to the two fields
`format_ws_url` reads. -/
structure AdminUrl where
  host : Option String
  port : Option Nat
deriving DecidableEq, Repr

/-- `AdminConn::format_ws_url` (lines 70-80). -/
def formatWsUrl (url : AdminUrl) : Except HcErr String :=
  match url.host with
  | none => .error (.internalError "Invalid admin ws host")
  | some host =>
      match url.port with
      | none => .error (.internalError "Port is absent from the admin ws url")
      | some port => .ok (host ++ ":" ++ toString port)

/-- Environment for one `AdminConn::call` invocation: the result of the
wrapped capability call on the current connection, the outcome of the
single `AdminWebsocket::connect` attempt a reconnect makes, and the result
of the capability call retried on the fresh connection. -/
structure AdminEnv (T : Type) where
  firstCall : Except ConductorApiError T
  connectAttempt : Except String Unit
  secondCall : Except ConductorApiError T

/-- `ADMIN_WS_CONNECTION_MAX_RETRIES = 1`. -/
def ADMIN_WS_CONNECTION_MAX_RETRIES : Nat := 1

/-- `AdminConn::reconnect` (lines 83-117): format the URL, then run the
connect loop, which with `ADMIN_WS_CONNECTION_MAX_RETRIES = 1` makes
exactly one connect attempt and maps its failure to
`UpstreamUnavailable`. -/
def adminReconnect {T : Type} (url : AdminUrl) (env : AdminEnv T) :
    Except HcErr Unit :=
  match formatWsUrl url with
  | .error e => .error e
  | .ok _ =>
      match env.connectAttempt with
      | .ok _ => .ok ()
      | .error _ => .error .upstreamUnavailable

/-- Whether a conductor error is `ConductorApiError::WebsocketError`,
matching `matches!(e, ConductorApiError::WebsocketError(_))`. -/
def isWebsocketError : ConductorApiError → Bool
  | .websocketError _ => true
  | .otherApi _ => false

/-- `AdminConn::call` (lines 120-158), instrumented with the number of
reconnect attempts made and the number of times the wrapped capability
call was invoked. -/
def adminCall {T : Type} (url : AdminUrl) (env : AdminEnv T) :
    Except HcErr T × Nat × Nat :=
  match env.firstCall with
  | .ok result => (.ok result, 0, 1)
  | .error e =>
      if isWebsocketError e then
        match adminReconnect url env with
        | .ok _ =>
            (env.secondCall.mapError (fun e2 => HcErr.holochainError e2), 1, 2)
        | .error connectErr => (.error connectErr, 1, 1)
      else (.error (.holochainError e), 0, 1)

/-! ## App selection (`src/app_selection.rs`)

DNA hashes are abstract numeric identifiers.  The outcome of the admin
`list_apps(Running)` call is supplied as `Option (List AppInfo)`:
`none` embeds a failed call (which `unwrap_or_else` turns into an empty
list), `some l` a successful one.
-/

/-- `AppSelectionError` in `src/app_selection.rs`. -/
inductive AppSelectionError where
  | notInstalled
  | notAllowed
  | multipleMatching
deriving DecidableEq, Repr

/-- A cell record, `holochain_conductor_api::CellInfo` reduced to the
single field app selection reads: provisioned cells carry their DNA
hash, all other variants never match. -/
inductive CellInfoM where
  | provisioned (dnaHash : Nat)
  | otherCell
deriving DecidableEq, Repr

/-- An application descriptor, `AppInfo` reduced to the fields read by
app selection: the installed app id and the role-indexed cell lists. -/
structure AppInfoM where
  installedAppId : String
  cellInfo : List (String × List CellInfoM)
deriving DecidableEq, Repr

/-- The filter predicate of `choose_unique_app` (src/app_selection.rs
lines 98-109): the app id equals the coordinator identifier and some cell
list contains a provisioned cell with the requested DNA hash. -/
def appMatches (dnaHash : Nat) (coordinatorIdentifier : String)
    (a : AppInfoM) : Bool :=
  a.installedAppId == coordinatorIdentifier &&
    a.cellInfo.any (fun roleCells =>
      roleCells.2.any (fun cellInfo =>
        match cellInfo with
        | .provisioned h => h == dnaHash
        | .otherCell => false))

/-- `choose_unique_app` (lines 93-124): `NotInstalled` when no installed
app matches, `MultipleMatching` when more than one does, otherwise the
unique match. -/
def chooseUniqueApp (dnaHash : Nat) (coordinatorIdentifier : String)
    (installedApps : List AppInfoM) : Except AppSelectionError AppInfoM :=
  match installedApps.filter (appMatches dnaHash coordinatorIdentifier) with
  | [] => .error .notInstalled
  | [a] => .ok a
  | _ => .error .multipleMatching

/-- `try_get_valid_app` (lines 36-91).  `cache` is the current content of
the `AppInfoCache`; `listAppsResult` is the outcome of
`admin_call.list_apps(Some(Running))` (`none` for a failed call).  Returns
the selection result together with the cache content after the call.  The
cached search result passes through `.ok()`, so a cache error of any kind
triggers the refresh; a failed or empty refresh yields `NotInstalled`
with the cache unchanged; otherwise the cache is replaced and the search
repeated on the fresh list, with the allow-list check applied to a unique
match. -/
def tryGetValidApp (dnaHash : Nat) (coordinatorIdentifier : String)
    (cache : List AppInfoM) (listAppsResult : Option (List AppInfoM))
    (allowedApps : List String) :
    Except AppSelectionError AppInfoM × List AppInfoM :=
  let cached := (chooseUniqueApp dnaHash coordinatorIdentifier cache).toOption
  let afterSearch : Except AppSelectionError (AppInfoM × List AppInfoM) :=
    match cached with
    | some appInfo => .ok (appInfo, cache)
    | none =>
        let newInstalledApps := listAppsResult.getD []
        if newInstalledApps.isEmpty then .error .notInstalled
        else
          match chooseUniqueApp dnaHash coordinatorIdentifier
              newInstalledApps with
          | .error e => .error e
          | .ok appInfo => .ok (appInfo, newInstalledApps)
  match afterSearch with
  | .error e =>
      -- On the refresh path the cache is replaced before the second
      -- search, so a selection error from the fresh list leaves the
      -- fresh list in the cache; the early NotInstalled return and the
      -- cached search leave the cache untouched.
      (.error e,
        match cached with
        | some _ => cache
        | none =>
            let newInstalledApps := listAppsResult.getD []
            if newInstalledApps.isEmpty then cache else newInstalledApps)
  | .ok (appInfo, newCache) =>
      if allowedApps.contains appInfo.installedAppId then
        (.ok appInfo, newCache)
      else (.error .notAllowed, newCache)

/-! ## Zome call route (`src/routes/zome_call.rs`)

The payload is embedded as the byte sequence of the query-parameter
string; Rust `String::len` is its length.
-/

/-- The payload-size error message, `format!("Payload exceeds {} bytes",
state.configuration.payload_limit_bytes)`. -/
def payloadSizeMsg (limit : Nat) : String :=
  "Payload exceeds " ++ toString limit ++ " bytes"

/-- The validation prefix of the `zome_call` handler (src/routes/
zome_call.rs lines 92-112): reject with `RequestMalformed` when the raw
byte length of the still-encoded payload exceeds the configured limit,
then reject with `UnauthorizedFunction` when the function is not
allowed.  Returns the checked payload for the transcoding stage. -/
def zomeCallChecks (cfg : Configuration)
    (coordinatorIdentifier zomeName fnName : String)
    (payload : Option (List Nat)) : Except HcErr (Option (List Nat)) :=
  match payload with
  | some p =>
      if p.length > cfg.payloadLimitBytes then
        .error (.requestMalformed (payloadSizeMsg cfg.payloadLimitBytes))
      else if !cfg.isFunctionAllowed coordinatorIdentifier zomeName fnName then
        .error (.unauthorizedFunction coordinatorIdentifier zomeName fnName)
      else .ok payload
  | none =>
      if !cfg.isFunctionAllowed coordinatorIdentifier zomeName fnName then
        .error (.unauthorizedFunction coordinatorIdentifier zomeName fnName)
      else .ok payload

/-- Modelled from the spec: the HTTP rendering of `RequestMalformed`
errors, which is not part of the extracted sources (the `error.rs`
revision under src/ predates the `RequestMalformed` variant).  Per the
spec's error table, `RequestMalformed` maps to HTTP 400 with body error
text prefixed by the words "Request is malformed: ". -/
def renderRequestMalformed (msg : String) : Nat × String :=
  (400, "Request is malformed: " ++ msg)

/-! ## JSON values (`serde_json::Value` as used by `src/transcode.rs`)

Modelled from the spec: the payload transcoding pipeline routes through
`serde_json`, the `base64` crate and the message-pack wire container,
none of which are part of this repository's sources.  JSON documents are
modelled with integer numbers (the spec's round-trip law is stated up to
canonical number forms; float payloads are outside the model) and strings
as sequences of Unicode scalar values.  JSON text is a sequence of ASCII
codes: the canonical printer escapes every character outside the
printable ASCII range, which is one of the canonical string forms the
spec's law allows.
-/

mutual

/-- A JSON document value. -/
inductive JValue where
  | null
  | bool (b : Bool)
  | num (n : Int)
  | str (s : List Nat)
  | arr (items : JValueList)
  | obj (members : JMemberList)

/-- The elements of a JSON array. -/
inductive JValueList where
  | nil
  | cons (v : JValue) (tl : JValueList)

/-- The members of a JSON object. -/
inductive JMemberList where
  | nil
  | cons (key : List Nat) (v : JValue) (tl : JMemberList)

end

/-- Number of elements of an array element list. -/
def lengthL : JValueList → Nat
  | .nil => 0
  | .cons _ tl => 1 + lengthL tl

/-- Number of members of an object member list. -/
def lengthM : JMemberList → Nat
  | .nil => 0
  | .cons _ _ tl => 1 + lengthM tl

mutual

/-- Fuel needed to parse or decode a value: one per nesting level, also
covering the element count of each bracket level. -/
def needV : JValue → Nat
  | .null => 1
  | .bool _ => 1
  | .num _ => 1
  | .str _ => 1
  | .arr items => 1 + Nat.max (lengthL items) (needL items)
  | .obj members => 1 + Nat.max (lengthM members) (needM members)

/-- Largest fuel needed by an array element. -/
def needL : JValueList → Nat
  | .nil => 0
  | .cons v tl => Nat.max (needV v) (needL tl)

/-- Largest fuel needed by an object member value. -/
def needM : JMemberList → Nat
  | .nil => 0
  | .cons _ v tl => Nat.max (needV v) (needM tl)

end

/-- The input does not begin with a decimal digit code, so a preceding
digit run is maximal. -/
def noDigitHead (l : List Nat) : Prop :=
  ∀ c, l.head? = some c → ¬(48 ≤ c ∧ c ≤ 57)

/-- A Unicode scalar value: excludes the surrogate range and values past
the Unicode maximum.  JSON strings consist of scalar values. -/
def wfChar (c : Nat) : Bool :=
  decide (c < 55296) || (decide (57344 ≤ c) && decide (c < 1114112))

/-- All characters of a string are scalar values. -/
def wfStr (s : List Nat) : Bool := s.all wfChar

mutual

/-- Well-formedness of a value: every string and key consists of Unicode
scalar values. -/
def wfVal : JValue → Bool
  | .null => true
  | .bool _ => true
  | .num _ => true
  | .str s => wfStr s
  | .arr items => wfList items
  | .obj members => wfMembers members

/-- Well-formedness of array elements. -/
def wfList : JValueList → Bool
  | .nil => true
  | .cons v tl => wfVal v && wfList tl

/-- Well-formedness of object members. -/
def wfMembers : JMemberList → Bool
  | .nil => true
  | .cons k v tl => wfStr k && wfVal v && wfMembers tl

end

/-! ### Decimal and hexadecimal digits -/

/-- Decimal digit codes of `n`, most significant first; `fuel` bounds the
recursion depth. -/
def natDigitsAux : Nat → Nat → List Nat
  | 0, _ => []
  | fuel + 1, n =>
      if n < 10 then [48 + n]
      else natDigitsAux fuel (n / 10) ++ [48 + n % 10]

/-- Decimal digit codes of `n`, most significant first. -/
def natDigits (n : Nat) : List Nat := natDigitsAux (n + 1) n

/-- Numeric value of a list of decimal digit codes. -/
def digitsValue (ds : List Nat) : Nat :=
  ds.foldl (fun acc d => acc * 10 + (d - 48)) 0

/-- Split a leading run of decimal digit codes from the input. -/
def takeDigits : List Nat → List Nat × List Nat
  | [] => ([], [])
  | c :: rest =>
      if 48 ≤ c ∧ c ≤ 57 then
        let r := takeDigits rest
        (c :: r.1, r.2)
      else ([], c :: rest)

/-- Lowercase hexadecimal digit code for `d < 16`. -/
def hexDigit (d : Nat) : Nat := if d < 10 then 48 + d else 87 + d

/-- Four-digit lowercase hexadecimal rendering of `n < 65536`. -/
def hex4 (n : Nat) : List Nat :=
  [hexDigit (n / 4096 % 16), hexDigit (n / 256 % 16),
   hexDigit (n / 16 % 16), hexDigit (n % 16)]

/-- Value of a hexadecimal digit code. -/
def hexVal (c : Nat) : Option Nat :=
  if 48 ≤ c ∧ c ≤ 57 then some (c - 48)
  else if 97 ≤ c ∧ c ≤ 102 then some (c - 87)
  else if 65 ≤ c ∧ c ≤ 70 then some (c - 55)
  else none

/-- Value of four hexadecimal digit codes. -/
def hexVal4 (a b c d : Nat) : Option Nat :=
  match hexVal a, hexVal b, hexVal c, hexVal d with
  | some x, some y, some z, some w => some (x * 4096 + y * 256 + z * 16 + w)
  | _, _, _, _ => none

/-! ### The canonical JSON printer -/

/-- Escape one string character: printable ASCII is emitted raw (with
quote and backslash escaped), everything else as one or two
hexadecimal escapes (a surrogate pair above the basic plane). -/
def escapeChar (c : Nat) : List Nat :=
  if c = 34 then [92, 34]
  else if c = 92 then [92, 92]
  else if 32 ≤ c ∧ c ≤ 126 then [c]
  else if c < 65536 then 92 :: 117 :: hex4 c
  else
    92 :: 117 :: hex4 (55296 + (c - 65536) / 1024) ++
      92 :: 117 :: hex4 (56320 + (c - 65536) % 1024)

/-- Escape a whole string body. -/
def escapeStr : List Nat → List Nat
  | [] => []
  | c :: rest => escapeChar c ++ escapeStr rest

/-- Decimal rendering of an integer. -/
def printInt (n : Int) : List Nat :=
  if n < 0 then 45 :: natDigits n.natAbs else natDigits n.toNat

mutual

/-- Canonical compact JSON text of a value, as ASCII codes. -/
def printVal : JValue → List Nat
  | .null => [110, 117, 108, 108]
  | .bool b => if b then [116, 114, 117, 101] else [102, 97, 108, 115, 101]
  | .num n => printInt n
  | .str s => 34 :: (escapeStr s ++ [34])
  | .arr items => 91 :: (printItems items ++ [93])
  | .obj members => 123 :: (printMembers members ++ [125])

/-- Array elements, comma separated. -/
def printItems : JValueList → List Nat
  | .nil => []
  | .cons v tl => printVal v ++ printItemsTail tl

/-- Remaining array elements, each preceded by a comma. -/
def printItemsTail : JValueList → List Nat
  | .nil => []
  | .cons v tl => 44 :: (printVal v ++ printItemsTail tl)

/-- Object members, comma separated. -/
def printMembers : JMemberList → List Nat
  | .nil => []
  | .cons k v tl =>
      (34 :: (escapeStr k ++ 34 :: 58 :: printVal v)) ++ printMembersTail tl

/-- Remaining object members, each preceded by a comma. -/
def printMembersTail : JMemberList → List Nat
  | .nil => []
  | .cons k v tl =>
      44 :: ((34 :: (escapeStr k ++ 34 :: 58 :: printVal v)) ++
        printMembersTail tl)

end

/-- One object member: quoted key, colon, value. -/
def printMember (k : List Nat) (v : JValue) : List Nat :=
  34 :: (escapeStr k ++ 34 :: 58 :: printVal v)

/-! ### The JSON parser (canonical compact form) -/

/-- Prepend a parsed character to a string-parse result. -/
def consStr (c : Nat) : Option (List Nat × List Nat) →
    Option (List Nat × List Nat)
  | some (s, rest) => some (c :: s, rest)
  | none => none

/-- Decode one simple escape character (the character after the
backslash); `none` when it is not a simple escape. -/
def escDecode (e : Nat) : Option Nat :=
  if e = 34 then some 34
  else if e = 92 then some 92
  else if e = 47 then some 47
  else if e = 98 then some 8
  else if e = 102 then some 12
  else if e = 110 then some 10
  else if e = 114 then some 13
  else if e = 116 then some 9
  else none

/-- Parse the body of a JSON string up to and including the closing
quote into UTF-16 code units: escapes are decoded, surrogate halves are
kept as they appear. -/
def parseStrRaw : List Nat → Option (List Nat × List Nat)
  | [] => none
  | c :: rest =>
      if c = 34 then some ([], rest)
      else if c = 92 then
        match rest with
        | [] => none
        | e :: rest1 =>
            if e = 117 then
              match rest1 with
              | h1 :: h2 :: h3 :: h4 :: rest2 =>
                  match hexVal4 h1 h2 h3 h4 with
                  | none => none
                  | some h => consStr h (parseStrRaw rest2)
              | _ => none
            else
              match escDecode e with
              | some d => consStr d (parseStrRaw rest1)
              | none => none
      else consStr c (parseStrRaw rest)

/-- Combine UTF-16 surrogate pairs into scalar values; a lone surrogate
is rejected. -/
def combineSurrogates : List Nat → Option (List Nat)
  | [] => some []
  | c :: rest =>
      if 55296 ≤ c ∧ c < 56320 then
        match rest with
        | [] => none
        | lo :: rest2 =>
            if 56320 ≤ lo ∧ lo < 57344 then
              match combineSurrogates rest2 with
              | some s =>
                  some ((65536 + (c - 55296) * 1024 + (lo - 56320)) :: s)
              | none => none
            else none
      else if 56320 ≤ c ∧ c < 57344 then none
      else
        match combineSurrogates rest with
        | some s => some (c :: s)
        | none => none

/-- Parse the body of a JSON string up to and including the closing
quote: decode code units, then recombine surrogate pairs. -/
def parseStrChars (input : List Nat) : Option (List Nat × List Nat) :=
  match parseStrRaw input with
  | none => none
  | some (units, rest) =>
      match combineSurrogates units with
      | some s => some (s, rest)
      | none => none

/-- The UTF-16 code units of a string of scalar values. -/
def toUnits : List Nat → List Nat
  | [] => []
  | c :: rest =>
      (if c < 65536 then [c]
       else [55296 + (c - 65536) / 1024, 56320 + (c - 65536) % 1024]) ++
        toUnits rest

/-- Parse the elements of a non-empty array after the opening bracket,
with `pv` parsing one value and `fuel` bounding the element count. -/
def parseItemsAux (pv : List Nat → Option (JValue × List Nat)) :
    Nat → List Nat → Option (JValueList × List Nat)
  | 0, _ => none
  | fuel + 1, input =>
      match pv input with
      | none => none
      | some (v, rest) =>
          match rest with
          | [] => none
          | d :: rest2 =>
              if d = 93 then some (.cons v .nil, rest2)
              else if d = 44 then
                match parseItemsAux pv fuel rest2 with
                | some (tl, rest3) => some (.cons v tl, rest3)
                | none => none
              else none

/-- Parse the members of a non-empty object after the opening brace. -/
def parseMembersAux (pv : List Nat → Option (JValue × List Nat)) :
    Nat → List Nat → Option (JMemberList × List Nat)
  | 0, _ => none
  | fuel + 1, input =>
      match input with
      | [] => none
      | q :: restKey =>
          if q = 34 then
            match parseStrChars restKey with
            | none => none
            | some (k, rest1) =>
                match rest1 with
                | [] => none
                | colon :: rest2 =>
                    if colon = 58 then
                      match pv rest2 with
                      | none => none
                      | some (v, rest3) =>
                          match rest3 with
                          | [] => none
                          | d :: rest4 =>
                              if d = 125 then some (.cons k v .nil, rest4)
                              else if d = 44 then
                                match parseMembersAux pv fuel rest4 with
                                | some (tl, rest5) =>
                                    some (.cons k v tl, rest5)
                                | none => none
                              else none
                    else none
          else none

/-- Parse one JSON value from the head of the input. -/
def parseVal : Nat → List Nat → Option (JValue × List Nat)
  | 0, _ => none
  | fuel + 1, input =>
      match input with
      | [] => none
      | c :: rest =>
          if c = 110 then
            match rest with
            | u :: l1 :: l2 :: r =>
                if u = 117 ∧ l1 = 108 ∧ l2 = 108 then some (.null, r)
                else none
            | _ => none
          else if c = 116 then
            match rest with
            | a :: b :: d :: r =>
                if a = 114 ∧ b = 117 ∧ d = 101 then some (.bool true, r)
                else none
            | _ => none
          else if c = 102 then
            match rest with
            | a :: b :: d :: e :: r =>
                if a = 97 ∧ b = 108 ∧ d = 115 ∧ e = 101 then
                  some (.bool false, r)
                else none
            | _ => none
          else if c = 34 then
            match parseStrChars rest with
            | some (s, r) => some (.str s, r)
            | none => none
          else if c = 91 then
            if rest.head? = some 93 then some (.arr .nil, rest.tail)
            else
              match parseItemsAux (parseVal fuel) fuel rest with
              | some (items, r) => some (.arr items, r)
              | none => none
          else if c = 123 then
            if rest.head? = some 125 then some (.obj .nil, rest.tail)
            else
              match parseMembersAux (parseVal fuel) fuel rest with
              | some (members, r) => some (.obj members, r)
              | none => none
          else if c = 45 then
            let td := takeDigits rest
            if td.1.isEmpty then none
            else some (.num (-(Int.ofNat (digitsValue td.1))), td.2)
          else if 48 ≤ c ∧ c ≤ 57 then
            let td := takeDigits (c :: rest)
            some (.num (Int.ofNat (digitsValue td.1)), td.2)
          else none

/-- Parse a complete JSON document: the whole input must be consumed.
Embeds `serde_json::from_slice::<serde_json::Value>` on canonical
compact input. -/
def parseJson (input : List Nat) : Option JValue :=
  match parseVal (input.length + 1) input with
  | some (v, []) => some v
  | _ => none

/-! ### Url-safe base64 (`base64::prelude::BASE64_URL_SAFE`)

Modelled from the spec: the payload is the url-safe base64 encoding of
the JSON text, with canonical padding.  Bytes and characters are both
`Nat` codes.
-/

/-- The url-safe alphabet: code of the character for sextet `n < 64`. -/
def sextetChar (n : Nat) : Nat :=
  if n < 26 then 65 + n
  else if n < 52 then 97 + (n - 26)
  else if n < 62 then 48 + (n - 52)
  else if n = 62 then 45
  else 95

/-- Sextet of an alphabet character code; `none` off the alphabet. -/
def sextetVal (c : Nat) : Option Nat :=
  if 65 ≤ c ∧ c ≤ 90 then some (c - 65)
  else if 97 ≤ c ∧ c ≤ 122 then some (c - 97 + 26)
  else if 48 ≤ c ∧ c ≤ 57 then some (c - 48 + 52)
  else if c = 45 then some 62
  else if c = 95 then some 63
  else none

/-- Url-safe base64 encoding of a byte sequence, with padding. -/
def b64encode : List Nat → List Nat
  | [] => []
  | [a] => [sextetChar (a / 4), sextetChar (a % 4 * 16), 61, 61]
  | [a, b] =>
      [sextetChar (a / 4), sextetChar (a % 4 * 16 + b / 16),
       sextetChar (b % 16 * 4), 61]
  | a :: b :: c :: rest =>
      sextetChar (a / 4) :: sextetChar (a % 4 * 16 + b / 16) ::
        sextetChar (b % 16 * 4 + c / 64) :: sextetChar (c % 64) ::
        b64encode rest

/-- Url-safe base64 decoding: requires canonical padding and zero
trailing bits, as the `base64` crate's default engine does. -/
def b64decode : List Nat → Option (List Nat)
  | [] => some []
  | p :: q :: r :: s :: rest =>
      match sextetVal p, sextetVal q with
      | some w, some x =>
          if r = 61 then
            if s = 61 ∧ rest = [] ∧ x % 16 = 0 then some [w * 4 + x / 16]
            else none
          else
            match sextetVal r with
            | some y =>
                if s = 61 then
                  if rest = [] ∧ y % 4 = 0 then
                    some [w * 4 + x / 16, x % 16 * 16 + y / 4]
                  else none
                else
                  match sextetVal s with
                  | some z =>
                      match b64decode rest with
                      | some bs =>
                          some ((w * 4 + x / 16) :: (x % 16 * 16 + y / 4) ::
                            (y % 4 * 64 + z) :: bs)
                      | none => none
                  | none => none
            | none => none
      | _, _ => none
  | _ => none

/-! ### The wire container (`ExternIO`)

Modelled from the spec: the wire encoding is an opaque message-pack
shaped byte container the gateway only encodes JSON values into and
decodes them out of.  It is embedded as a concrete tag-prefixed byte
encoding with little-endian base-128 length fields.
-/

/-- Little-endian base-128 varint encoding of `n`; `fuel` bounds the
recursion depth. -/
def lenEncAux : Nat → Nat → List Nat
  | 0, _ => []
  | fuel + 1, n =>
      if n < 128 then [n]
      else (128 + n % 128) :: lenEncAux fuel (n / 128)

/-- Little-endian base-128 varint encoding of `n`. -/
def lenEnc (n : Nat) : List Nat := lenEncAux (n + 1) n

/-- Varint decoding. -/
def lenDec : List Nat → Option (Nat × List Nat)
  | [] => none
  | b :: rest =>
      if b < 128 then some (b, rest)
      else if b < 256 then
        match lenDec rest with
        | some (m, r) => some (b - 128 + 128 * m, r)
        | none => none
      else none

/-- Wire encoding of an integer: sign byte then varint magnitude. -/
def intEnc (i : Int) : List Nat :=
  if i < 0 then 1 :: lenEnc i.natAbs else 0 :: lenEnc i.toNat

/-- Wire decoding of an integer. -/
def intDec : List Nat → Option (Int × List Nat)
  | [] => none
  | s :: rest =>
      if s = 0 then
        match lenDec rest with
        | some (n, r) => some (Int.ofNat n, r)
        | none => none
      else if s = 1 then
        match lenDec rest with
        | some (n, r) => some (-(Int.ofNat n), r)
        | none => none
      else none

/-- Wire encoding of string contents: each scalar value as a varint. -/
def charsEnc : List Nat → List Nat
  | [] => []
  | c :: rest => lenEnc c ++ charsEnc rest

/-- Wire decoding of `count` scalar values. -/
def charsDec : Nat → List Nat → Option (List Nat × List Nat)
  | 0, input => some ([], input)
  | count + 1, input =>
      match lenDec input with
      | none => none
      | some (c, rest) =>
          match charsDec count rest with
          | some (s, r) => some (c :: s, r)
          | none => none

/-- Wire encoding of a string: length then contents. -/
def strEnc (s : List Nat) : List Nat := lenEnc s.length ++ charsEnc s

/-- Wire decoding of a string. -/
def strDec (input : List Nat) : Option (List Nat × List Nat) :=
  match lenDec input with
  | none => none
  | some (n, rest) => charsDec n rest

mutual

/-- Wire encoding of a JSON value. -/
def wireEncVal : JValue → List Nat
  | .null => [192]
  | .bool false => [194]
  | .bool true => [195]
  | .num n => 211 :: intEnc n
  | .str s => 217 :: strEnc s
  | .arr items => 221 :: (lenEnc (lengthL items) ++ wireEncItems items)
  | .obj members => 223 :: (lenEnc (lengthM members) ++ wireEncMembers members)

/-- Wire encoding of array elements, in order. -/
def wireEncItems : JValueList → List Nat
  | .nil => []
  | .cons v tl => wireEncVal v ++ wireEncItems tl

/-- Wire encoding of object members, in order: key string then value. -/
def wireEncMembers : JMemberList → List Nat
  | .nil => []
  | .cons k v tl => strEnc k ++ wireEncVal v ++ wireEncMembers tl

end

/-- Wire decoding of `count` array elements, with `pv` decoding one
value. -/
def wireDecItems (pv : List Nat → Option (JValue × List Nat)) :
    Nat → List Nat → Option (JValueList × List Nat)
  | 0, input => some (.nil, input)
  | count + 1, input =>
      match pv input with
      | none => none
      | some (v, rest) =>
          match wireDecItems pv count rest with
          | some (tl, r) => some (.cons v tl, r)
          | none => none

/-- Wire decoding of `count` object members. -/
def wireDecMembers (pv : List Nat → Option (JValue × List Nat)) :
    Nat → List Nat → Option (JMemberList × List Nat)
  | 0, input => some (.nil, input)
  | count + 1, input =>
      match strDec input with
      | none => none
      | some (k, rest) =>
          match pv rest with
          | none => none
          | some (v, rest2) =>
              match wireDecMembers pv count rest2 with
              | some (tl, r) => some (.cons k v tl, r)
              | none => none

/-- Wire decoding of one JSON value. -/
def wireDecVal : Nat → List Nat → Option (JValue × List Nat)
  | 0, _ => none
  | fuel + 1, input =>
      match input with
      | [] => none
      | t :: r =>
          if t = 192 then some (.null, r)
          else if t = 194 then some (.bool false, r)
          else if t = 195 then some (.bool true, r)
          else if t = 211 then
            match intDec r with
            | some (n, rest) => some (.num n, rest)
            | none => none
          else if t = 217 then
            match strDec r with
            | some (s, rest) => some (.str s, rest)
            | none => none
          else if t = 221 then
            match lenDec r with
            | none => none
            | some (count, rest) =>
                match wireDecItems (wireDecVal fuel) count rest with
                | some (items, rest2) => some (.arr items, rest2)
                | none => none
          else if t = 223 then
            match lenDec r with
            | none => none
            | some (count, rest) =>
                match wireDecMembers (wireDecVal fuel) count rest with
                | some (members, rest2) => some (.obj members, rest2)
                | none => none
          else none

/-- Decode a complete wire document, `ExternIO::decode`: one value that
consumes the whole byte sequence. -/
def wireDecFull (hsb : List Nat) : Option JValue :=
  match wireDecVal (hsb.length + 1) hsb with
  | some (v, []) => some v
  | _ => none

/-! ### The transcoders (`src/transcode.rs`) -/

/-- `base64_json_to_hsb` (src/transcode.rs lines 16-35): decode the
optional url-safe base64 payload, parse it as a JSON value, and wire
encode the value; without a payload the unit value (serialized as JSON
null) is wire encoded. -/
def base64JsonToHsb (maybeBase64EncodedPayload : Option (List Nat)) :
    Except HcErr (List Nat) :=
  match maybeBase64EncodedPayload with
  | some base64EncodedPayload =>
      match b64decode base64EncodedPayload with
      | none => .error (.requestMalformed "Invalid base64 encoding")
      | some decodedPayload =>
          match parseJson decodedPayload with
          | none => .error (.requestMalformed "Invalid JSON value")
          | some jsonPayload => .ok (wireEncVal jsonPayload)
  | none => .ok (wireEncVal .null)

/-- `hsb_to_json` (src/transcode.rs lines 39-46): decode the wire bytes
back to a JSON value and render it as a JSON string; a decode failure is
reported as a Holochain websocket error. -/
def hsbToJson (hsbEncodedResponse : List Nat) : Except HcErr (List Nat) :=
  match wireDecFull hsbEncodedResponse with
  | some jsonValue => .ok (printVal jsonValue)
  | none =>
      .error (.holochainError (.websocketError "failed to decode ExternIO"))

/-- The `zome_call` handler body (src/routes/zome_call.rs lines 86-123):
payload size check, function allow check, then inbound transcoding. -/
def zomeCall (cfg : Configuration)
    (coordinatorIdentifier zomeName fnName : String)
    (payload : Option (List Nat)) : Except HcErr (List Nat) :=
  match zomeCallChecks cfg coordinatorIdentifier zomeName fnName payload with
  | .error e => .error e
  | .ok checkedPayload => base64JsonToHsb checkedPayload

/-! ## Concrete fixtures used by witnesses -/

/-- A sample configuration: one unrestricted app, one restricted app. -/
def cfgW : Configuration :=
  { adminSocketAddr := "127.0.0.1:8888"
    payloadLimitBytes := 10
    allowedAppIds := ["app1", "app2"]
    allowedFns := [("app1", .all),
      ("app2", .restricted [{ zomeName := "z1", fnName := "f1" }])]
    maxAppConnections := 2
    zomeCallTimeoutMs := 10000 }

/-- An eleven-byte payload (the digit 1 repeated). -/
def payload11 : List Nat := List.replicate 11 49

/-- A ten-byte payload. -/
def payload10 : List Nat := List.replicate 10 49

/-- The configuration produced by parsing
`tryNew "a" "" "app1" [("app1", all)] "" ""`. -/
def cfgOk : Configuration :=
  { adminSocketAddr := "a"
    payloadLimitBytes := 10240
    allowedAppIds := ["app1"]
    allowedFns := [("app1", .all)]
    maxAppConnections := 50
    zomeCallTimeoutMs := 10000 }

/-- A well-formed admin websocket URL. -/
def urlW : AdminUrl := { host := some "127.0.0.1", port := some 8888 }

/-- Admin environment: transport failure, successful reconnect, then a
second transport failure from the retried capability call. -/
def adminEnvTransportTwice : AdminEnv Nat :=
  { firstCall := .error (.websocketError "first")
    connectAttempt := .ok ()
    secondCall := .error (.websocketError "second") }

/-- Admin environment: a protocol-level Conductor error. -/
def adminEnvProtocol : AdminEnv Nat :=
  { firstCall := .error (.otherApi "protocol")
    connectAttempt := .ok ()
    secondCall := .ok 0 }

/-- Admin environment: transport failure and a refused reconnect. -/
def adminEnvConnFail : AdminEnv Nat :=
  { firstCall := .error (.websocketError "first")
    connectAttempt := .error "refused"
    secondCall := .ok 0 }

/-- A pool with two entries sharing the minimal `opened_at`, in an
iteration order opposite to the id order. -/
def stTie : PoolState := [("b", ⟨10, 5⟩), ("a", ⟨11, 5⟩)]

/-- The entry inserted for app id `c` at time 9. -/
def entC : String × AppWebsocketWithState := ("c", ⟨12, 9⟩)

/-- Pool environment whose connection attempts succeed. -/
def envC4 : PoolEnv Unit :=
  { connect := fun _ => .ok 12, now := fun _ => 9, exec := fun _ _ => .ok () }

/-- Pool environment: connecting always reports the upstream
unavailable. -/
def envC1Retry : PoolEnv Nat :=
  { connect := fun _ => .error .upstreamUnavailable
    now := fun i => i
    exec := fun _ _ => .error (.holochainError (.websocketError "ws")) }

/-- Pool environment: connections succeed, the executed call always
fails at the websocket layer. -/
def envC1WsExec : PoolEnv Nat :=
  { connect := fun _ => .ok 20
    now := fun i => i
    exec := fun _ _ => .error (.holochainError (.websocketError "ws")) }

/-- Pool environment: connections succeed, the executed call fails with
a non-transport error. -/
def envC1Fatal : PoolEnv Nat :=
  { connect := fun _ => .ok 20
    now := fun i => i
    exec := fun _ _ => .error (.requestMalformed "bad") }

/-- Pool environment: connections and calls succeed. -/
def envC1Ok : PoolEnv Nat :=
  { connect := fun _ => .ok 20
    now := fun i => i
    exec := fun _ _ => .ok 99 }

/-- An installed app with id `app1` and a provisioned cell for DNA 7. -/
def appMatch1 : AppInfoM :=
  { installedAppId := "app1", cellInfo := [("role", [.provisioned 7])] }

/-- A second installed app with the same id and DNA hash. -/
def appMatch2 : AppInfoM :=
  { installedAppId := "app1", cellInfo := [("role2", [.provisioned 7])] }

/-- A cache holding two apps that both match DNA 7 and id `app1`. -/
def cacheTwo : List AppInfoM := [appMatch1, appMatch2]

/-- Pool environment: connecting fails fatally (not upstream
unavailability). -/
def envC1ConnErr : PoolEnv Nat :=
  { connect := fun _ => .error (.internalError "boom")
    now := fun i => i
    exec := fun _ _ => .ok 0 }

/-- A pool holding one entry for app id `c`. -/
def stC : PoolState := [("c", ⟨1, 1⟩)]

end HcHttpGw

namespace HcHttpGw

/-! # Theorems -/

/-- Claim C7: `is_function_allowed` returns false when the app has no
entry in `allowed_fns`, true when the entry is `All`, and otherwise
exactly the membership of the zome/function pair in the restricted set;
the result does not depend on `allowed_apps`. -/
theorem is_function_allowed_characterization (cfg : Configuration)
    (appId zomeName fnName : String) :
    (cfg.getAllowedFunctions appId = none →
      cfg.isFunctionAllowed appId zomeName fnName = false) ∧
    (cfg.getAllowedFunctions appId = some .all →
      cfg.isFunctionAllowed appId zomeName fnName = true) ∧
    (∀ fns, cfg.getAllowedFunctions appId = some (.restricted fns) →
      cfg.isFunctionAllowed appId zomeName fnName =
        fns.contains { zomeName := zomeName, fnName := fnName }) ∧
    (∀ otherAppIds : List String,
      Configuration.isFunctionAllowed
        { cfg with allowedAppIds := otherAppIds } appId zomeName fnName =
        cfg.isFunctionAllowed appId zomeName fnName) := by
  refine ⟨fun h => ?_, fun h => ?_, fun fns h => ?_, fun otherAppIds => rfl⟩ <;>
    simp [Configuration.isFunctionAllowed, h]

/-- Witness for C7 at a concrete configuration. -/
theorem is_function_allowed_characterization_witness :
    cfgW.isFunctionAllowed "app3" "z1" "f1" = false ∧
    cfgW.isFunctionAllowed "app1" "anyZome" "anyFn" = true ∧
    cfgW.isFunctionAllowed "app2" "z1" "f2" =
      ([{ zomeName := "z1", fnName := "f1" }] : List ZomeFn).contains
        { zomeName := "z1", fnName := "f2" } ∧
    Configuration.isFunctionAllowed
      { cfgW with allowedAppIds := [] } "app2" "z1" "f1" =
      cfgW.isFunctionAllowed "app2" "z1" "f1" :=
  ⟨(is_function_allowed_characterization cfgW "app3" "z1" "f1").1 (by decide),
   (is_function_allowed_characterization cfgW "app1" "anyZome" "anyFn").2.1
     (by decide),
   (is_function_allowed_characterization cfgW "app2" "z1" "f2").2.2.1
     [{ zomeName := "z1", fnName := "f1" }] (by decide),
   (is_function_allowed_characterization cfgW "app2" "z1" "f1").2.2.2 []⟩

/-- Helper: what a successful `try_new` guarantees about the constructed
configuration. -/
theorem tryNew_ok_spec (adminSocketAddr payloadLimitBytes allowedAppIdsStr :
      String) (allowedFns : List (String × AllowedFns))
    (maxAppConnections zomeCallTimeout : String) (cfg : Configuration)
    (h : Configuration.tryNew adminSocketAddr payloadLimitBytes
      allowedAppIdsStr allowedFns maxAppConnections zomeCallTimeout =
      .ok cfg) :
    cfg.allowedAppIds = allowedAppIdsFromStr allowedAppIdsStr ∧
    cfg.allowedFns = allowedFns ∧
    ∀ appId ∈ cfg.allowedAppIds, containsKey allowedFns appId = true := by
  unfold Configuration.tryNew at h
  split at h
  · exact absurd h (by simp)
  · split at h
    · exact absurd h (by simp)
    · rename_i hfind
      split at h
      · exact absurd h (by simp)
      · split at h
        · exact absurd h (by simp)
        · cases h
          refine ⟨rfl, rfl, fun appId hmem => ?_⟩
          have := List.find?_eq_none.mp hfind appId hmem
          simpa using this

/-- Claim C8: configuration parsing succeeds only when every parsed
allowed app id has a key in the `allowed_fns` map, and the constructed
configuration keeps that map, so every constructed configuration
satisfies the subset invariant; when some allowed app id lacks an entry,
no configuration is produced. -/
theorem try_new_allowed_fns_invariant :
    (∀ (adminSocketAddr payloadLimitBytes allowedAppIdsStr : String)
       (allowedFns : List (String × AllowedFns))
       (maxAppConnections zomeCallTimeout : String) (cfg : Configuration),
       Configuration.tryNew adminSocketAddr payloadLimitBytes
         allowedAppIdsStr allowedFns maxAppConnections zomeCallTimeout =
         .ok cfg →
       cfg.allowedAppIds = allowedAppIdsFromStr allowedAppIdsStr ∧
       cfg.allowedFns = allowedFns ∧
       ∀ appId ∈ cfg.allowedAppIds, containsKey allowedFns appId = true) ∧
    (∀ (adminSocketAddr payloadLimitBytes allowedAppIdsStr : String)
       (allowedFns : List (String × AllowedFns))
       (maxAppConnections zomeCallTimeout : String),
       (∃ appId ∈ allowedAppIdsFromStr allowedAppIdsStr,
         containsKey allowedFns appId = false) →
       ¬ ∃ cfg, Configuration.tryNew adminSocketAddr payloadLimitBytes
         allowedAppIdsStr allowedFns maxAppConnections zomeCallTimeout =
         .ok cfg) := by
  refine ⟨tryNew_ok_spec, ?_⟩
  rintro adminSocketAddr payloadLimitBytes allowedAppIdsStr allowedFns
    maxAppConnections zomeCallTimeout ⟨appId, hmem, hnotkey⟩ ⟨cfg, hok⟩
  obtain ⟨hids, _, hsub⟩ :=
    tryNew_ok_spec adminSocketAddr payloadLimitBytes allowedAppIdsStr
      allowedFns maxAppConnections zomeCallTimeout cfg hok
  rw [hsub appId (hids ▸ hmem)] at hnotkey
  exact absurd hnotkey (by simp)

/-- Witness for C8: a parse that succeeds satisfies the invariant, and a
parse with an allowed app id missing from `allowed_fns` fails. -/
theorem try_new_allowed_fns_invariant_witness :
    (cfgOk.allowedAppIds = allowedAppIdsFromStr "app1" ∧
     cfgOk.allowedFns = [("app1", AllowedFns.all)] ∧
     ∀ appId ∈ cfgOk.allowedAppIds,
       containsKey [("app1", AllowedFns.all)] appId = true) ∧
    ¬ ∃ cfg, Configuration.tryNew "a" "" "app1,app2"
      [("app1", AllowedFns.all)] "" "" = .ok cfg :=
  ⟨try_new_allowed_fns_invariant.1 "a" "" "app1" [("app1", AllowedFns.all)]
      "" "" cfgOk rfl,
   try_new_allowed_fns_invariant.2 "a" "" "app1,app2"
      [("app1", AllowedFns.all)] "" "" ⟨"app2", by decide, by decide⟩⟩

/-- Helper: the payload-size message never coincides with the transcoder
error messages. -/
theorem payloadSizeMsg_ne_transcode (n : Nat) :
    payloadSizeMsg n ≠ "Invalid base64 encoding" ∧
    payloadSizeMsg n ≠ "Invalid JSON value" := by
  constructor <;>
    · intro h
      have hp : (payloadSizeMsg n).data.head? = some 'P' := rfl
      rw [h] at hp
      exact absurd hp (by decide)

/-- Claim C6: the payload size check runs on the raw, still-encoded byte
length of the payload: a request carrying a payload is rejected with the
`RequestMalformed` payload-size message (rendered as HTTP 400 with the
message "Payload exceeds <limit> bytes") exactly when the encoded
string's byte length exceeds `payload_limit_bytes`, independently of the
decoded size. -/
theorem payload_size_check_on_encoded_length (cfg : Configuration)
    (coordinatorIdentifier zomeName fnName : String) (p : List Nat) :
    (p.length > cfg.payloadLimitBytes →
      zomeCall cfg coordinatorIdentifier zomeName fnName (some p) =
        .error (.requestMalformed (payloadSizeMsg cfg.payloadLimitBytes)) ∧
      renderRequestMalformed (payloadSizeMsg cfg.payloadLimitBytes) =
        (400, "Request is malformed: " ++
          payloadSizeMsg cfg.payloadLimitBytes)) ∧
    (p.length ≤ cfg.payloadLimitBytes →
      zomeCall cfg coordinatorIdentifier zomeName fnName (some p) ≠
        .error (.requestMalformed (payloadSizeMsg cfg.payloadLimitBytes))) := by
  constructor
  · intro h
    refine ⟨?_, rfl⟩
    simp only [zomeCall, zomeCallChecks]
    rw [if_pos h]
  · intro h
    simp only [zomeCall, zomeCallChecks]
    rw [if_neg (by omega)]
    by_cases hallow :
        cfg.isFunctionAllowed coordinatorIdentifier zomeName fnName = true
    · rw [if_neg (by simp [hallow])]
      simp only [base64JsonToHsb]
      cases hb : b64decode p with
      | none =>
          simp only [hb, ne_eq, Except.error.injEq,
            HcErr.requestMalformed.injEq]
          exact fun hmsg => (payloadSizeMsg_ne_transcode _).1 hmsg.symm
      | some bytes =>
          cases hj : parseJson bytes with
          | none =>
              simp only [hb, hj, ne_eq, Except.error.injEq,
                HcErr.requestMalformed.injEq]
              exact fun hmsg => (payloadSizeMsg_ne_transcode _).2 hmsg.symm
          | some v => simp [hb, hj]
    · rw [if_pos (by simp [hallow])]
      simp

/-- Helper: a pool `call` performs at most `fuel` attempts. -/
theorem poolCallAux_attempts_le {T : Type} (env : PoolEnv T)
    (maxConns : Nat) (appId : String) :
    ∀ fuel i st, (poolCallAux env maxConns appId fuel i st).2.2 ≤ fuel := by
  intro fuel
  induction fuel with
  | zero => intro i st; simp [poolCallAux]
  | succ n ih =>
      intro i st
      unfold poolCallAux
      cases hg : getOrConnectAppClient env maxConns i appId st with
      | mk st1 res =>
          cases res with
          | error e =>
              by_cases he : e = HcErr.upstreamUnavailable
              · have h1 := ih (i + 1) st1
                simp only [he, eq_self_iff_true, if_true]
                omega
              · simp [he]
          | ok ws =>
              cases hx : env.exec i ws with
              | ok r => simp [hx]
              | error e =>
                  by_cases he : isWsErr e = true
                  · have h1 := ih (i + 1) (removeAppClient appId st1)
                    simp only [hx, he, eq_self_iff_true, if_true]
                    omega
                  · simp [hx, he]

/-- Helper: when every connection attempt reports the upstream
unavailable and every executed call fails at the websocket layer, the
loop exhausts its fuel and reports the upstream unavailable. -/
theorem poolCallAux_all_retry {T : Type} (env : PoolEnv T)
    (maxConns : Nat) (appId : String)
    (hconn : ∀ i, env.connect i = .error .upstreamUnavailable)
    (hexec : ∀ i ws, ∃ m,
      env.exec i ws = .error (.holochainError (.websocketError m))) :
    ∀ fuel i st,
      (poolCallAux env maxConns appId fuel i st).2.1 =
        .error .upstreamUnavailable ∧
      (poolCallAux env maxConns appId fuel i st).2.2 = fuel := by
  intro fuel
  induction fuel with
  | zero => intro i st; simp [poolCallAux]
  | succ n ih =>
      intro i st
      unfold poolCallAux
      cases hl : lookupKey st appId with
      | none =>
          have hg : getOrConnectAppClient env maxConns i appId st =
              (st, .error .upstreamUnavailable) := by
            unfold getOrConnectAppClient
            rw [hl, hconn i]
          have h1 := ih (i + 1) st
          simp only [hg, eq_self_iff_true, if_true]
          exact ⟨h1.1, by omega⟩
      | some client =>
          have hg : getOrConnectAppClient env maxConns i appId st =
              (st, .ok client.appWs) := by
            unfold getOrConnectAppClient
            rw [hl]
          obtain ⟨m, hm⟩ := hexec i client.appWs
          have h1 := ih (i + 1) (removeAppClient appId st)
          simp only [hg, hm, isWsErr, eq_self_iff_true, if_true]
          exact ⟨h1.1, by omega⟩

/-- Claim C1: `AppConnPool::call` makes at most three attempts; an
`UpstreamUnavailable` while obtaining the connection retries, any other
connection error is returned immediately; a websocket error from the
executed call removes the pool entry for the app id and retries, any
other error from the call is returned immediately; three attempts
without success end in `UpstreamUnavailable`. -/
theorem pool_call_retry_semantics {T : Type} (env : PoolEnv T)
    (maxConns : Nat) (appId : String) :
    (∀ st, (poolCall env maxConns appId st).2.2 ≤ 3) ∧
    (∀ fuel i st, lookupKey st appId = none →
      env.connect i = .error .upstreamUnavailable →
      poolCallAux env maxConns appId (fuel + 1) i st =
        (let r := poolCallAux env maxConns appId fuel (i + 1) st
         (r.1, r.2.1, r.2.2 + 1))) ∧
    (∀ fuel i st e, lookupKey st appId = none →
      env.connect i = .error e → e ≠ .upstreamUnavailable →
      poolCallAux env maxConns appId (fuel + 1) i st = (st, .error e, 1)) ∧
    (∀ fuel i st st1 ws m,
      getOrConnectAppClient env maxConns i appId st = (st1, .ok ws) →
      env.exec i ws = .error (.holochainError (.websocketError m)) →
      poolCallAux env maxConns appId (fuel + 1) i st =
        (let r := poolCallAux env maxConns appId fuel (i + 1)
           (removeAppClient appId st1)
         (r.1, r.2.1, r.2.2 + 1))) ∧
    (∀ fuel i st st1 ws e,
      getOrConnectAppClient env maxConns i appId st = (st1, .ok ws) →
      env.exec i ws = .error e → isWsErr e = false →
      poolCallAux env maxConns appId (fuel + 1) i st = (st1, .error e, 1)) ∧
    (∀ fuel i st st1 ws r,
      getOrConnectAppClient env maxConns i appId st = (st1, .ok ws) →
      env.exec i ws = .ok r →
      poolCallAux env maxConns appId (fuel + 1) i st = (st1, .ok r, 1)) ∧
    ((∀ i, env.connect i = .error .upstreamUnavailable) →
     (∀ i ws, ∃ m,
       env.exec i ws = .error (.holochainError (.websocketError m))) →
     ∀ st, (poolCall env maxConns appId st).2.1 =
         .error .upstreamUnavailable ∧
       (poolCall env maxConns appId st).2.2 = 3) := by
  refine ⟨fun st => poolCallAux_attempts_le env maxConns appId 3 0 st,
    ?_, ?_, ?_, ?_, ?_, ?_⟩
  · intro fuel i st hl hc
    have hg : getOrConnectAppClient env maxConns i appId st =
        (st, .error .upstreamUnavailable) := by
      unfold getOrConnectAppClient
      rw [hl, hc]
    simp only [poolCallAux, hg, eq_self_iff_true, if_true]
  · intro fuel i st e hl hc he
    have hg : getOrConnectAppClient env maxConns i appId st =
        (st, .error e) := by
      unfold getOrConnectAppClient
      rw [hl, hc]
    simp only [poolCallAux, hg, if_neg he]
  · intro fuel i st st1 ws m hg hx
    simp only [poolCallAux, hg, hx, isWsErr, eq_self_iff_true, if_true]
  · intro fuel i st st1 ws e hg hx he
    simp only [poolCallAux, hg, hx, he]
    rw [if_neg (by simp [he])]
  · intro fuel i st st1 ws r hg hx
    simp only [poolCallAux, hg, hx]
  · intro hconn hexec st
    exact poolCallAux_all_retry env maxConns appId hconn hexec 3 0 st

/-- Witness for C1: each retry rule exercised at a concrete environment
and pool, and a run of three retryable failures. -/
theorem pool_call_retry_semantics_witness :
    (poolCall envC1Ok 2 "c" stC).2.2 ≤ 3 ∧
    poolCallAux envC1Retry 2 "c" 3 0 [] =
      (let r := poolCallAux envC1Retry 2 "c" 2 1 []
       (r.1, r.2.1, r.2.2 + 1)) ∧
    poolCallAux envC1ConnErr 2 "c" 3 0 [] =
      ([], .error (.internalError "boom"), 1) ∧
    poolCallAux envC1WsExec 2 "c" 3 0 [] =
      (let r := poolCallAux envC1WsExec 2 "c" 2 1
         (removeAppClient "c" [("c", ⟨20, 0⟩)])
       (r.1, r.2.1, r.2.2 + 1)) ∧
    poolCallAux envC1Fatal 2 "c" 3 0 [] =
      ([("c", ⟨20, 0⟩)], .error (.requestMalformed "bad"), 1) ∧
    poolCallAux envC1Ok 2 "c" 3 0 [] = ([("c", ⟨20, 0⟩)], .ok 99, 1) ∧
    ((poolCall envC1Retry 2 "c" stC).2.1 = .error .upstreamUnavailable ∧
     (poolCall envC1Retry 2 "c" stC).2.2 = 3) :=
  ⟨(pool_call_retry_semantics envC1Ok 2 "c").1 stC,
   (pool_call_retry_semantics envC1Retry 2 "c").2.1 2 0 [] rfl rfl,
   (pool_call_retry_semantics envC1ConnErr 2 "c").2.2.1 2 0 []
     (HcErr.internalError "boom") rfl rfl (by decide),
   (pool_call_retry_semantics envC1WsExec 2 "c").2.2.2.1 2 0 []
     [("c", ⟨20, 0⟩)] 20 "ws" rfl rfl,
   (pool_call_retry_semantics envC1Fatal 2 "c").2.2.2.2.1 2 0 []
     [("c", ⟨20, 0⟩)] 20 (HcErr.requestMalformed "bad") rfl rfl rfl,
   (pool_call_retry_semantics envC1Ok 2 "c").2.2.2.2.2.1 2 0 []
     [("c", ⟨20, 0⟩)] 20 99 rfl rfl,
   (pool_call_retry_semantics envC1Retry 2 "c").2.2.2.2.2.2
     (fun i => rfl) (fun i ws => ⟨"ws", rfl⟩) stC⟩

/-- Helper: erasing a key never lengthens the pool. -/
theorem length_eraseKey_le (k : String) (st : PoolState) :
    (eraseKey k st).length ≤ st.length :=
  (List.eraseP_sublist st).length_le

/-- Helper: the selected minimal entry is an entry of the pool. -/
theorem minOpenedEntry_mem :
    ∀ (st : PoolState) m, minOpenedEntry st = some m → m ∈ st := by
  intro st
  induction st with
  | nil => intro m h; simp [minOpenedEntry] at h
  | cons e rest ih =>
      intro m h
      simp only [minOpenedEntry] at h
      cases hr : minOpenedEntry rest with
      | none =>
          simp only [hr, Option.some.injEq] at h
          subst h
          exact List.mem_cons_self _ _
      | some mr =>
          simp only [hr] at h
          split at h <;> simp only [Option.some.injEq] at h <;> subst h
          · exact List.mem_cons_self _ _
          · exact List.mem_cons_of_mem _ (ih _ hr)

/-- Helper: only the empty pool has no minimal entry. -/
theorem minOpenedEntry_eq_none :
    ∀ (st : PoolState), minOpenedEntry st = none ↔ st = [] := by
  intro st
  cases st with
  | nil => simp [minOpenedEntry]
  | cons e rest =>
      simp only [minOpenedEntry]
      cases hr : minOpenedEntry rest with
      | none => simp [hr]
      | some mr =>
          simp only [hr]
          split <;> simp

/-- Helper: after one insertion beyond the bound, eviction restores the
size bound. -/
theorem evictIfOver_length (maxConns : Nat) (st : PoolState)
    (h : st.length ≤ maxConns + 1) :
    (evictIfOver maxConns st).length ≤ maxConns := by
  unfold evictIfOver
  split
  · rename_i hover
    cases hm : minOpenedAtKey st with
    | none =>
        exfalso
        have hnone : minOpenedEntry st = none := by
          unfold minOpenedAtKey at hm
          cases h2 : minOpenedEntry st
          · rfl
          · rw [h2] at hm; simp at hm
        rw [minOpenedEntry_eq_none] at hnone
        subst hnone
        simp at hover
    | some victim =>
        obtain ⟨m, hme, hv⟩ : ∃ m, minOpenedEntry st = some m ∧
            victim = m.1 := by
          unfold minOpenedAtKey at hm
          cases h2 : minOpenedEntry st with
          | none => rw [h2] at hm; simp at hm
          | some m2 =>
              rw [h2] at hm
              simp at hm
              exact ⟨m2, rfl, hm.symm⟩
        have hmem := minOpenedEntry_mem st m hme
        have hlen : (eraseKey m.1 st).length + 1 = st.length :=
          List.length_eraseP_add_one hmem (by simp)
        subst hv
        simp only [eraseKey] at hlen ⊢
        omega
  · omega

/-- Helper: `get_or_connect_app_client` preserves the size bound. -/
theorem getOrConnect_state_length {T : Type} (env : PoolEnv T)
    (maxConns i : Nat) (appId : String) (st : PoolState)
    (h : st.length ≤ maxConns) :
    ((getOrConnectAppClient env maxConns i appId st).1).length ≤ maxConns := by
  unfold getOrConnectAppClient
  cases hl : lookupKey st appId with
  | some c => simpa using h
  | none =>
      cases hc : env.connect i with
      | error e => simpa using h
      | ok ws =>
          exact evictIfOver_length maxConns _ (by simp; omega)

/-- Helper: the `call` loop preserves the size bound. -/
theorem poolCallAux_state_length {T : Type} (env : PoolEnv T)
    (maxConns : Nat) (appId : String) :
    ∀ fuel i st, st.length ≤ maxConns →
      ((poolCallAux env maxConns appId fuel i st).1).length ≤ maxConns := by
  intro fuel
  induction fuel with
  | zero => intro i st h; simpa [poolCallAux] using h
  | succ n ih =>
      intro i st h
      unfold poolCallAux
      cases hg : getOrConnectAppClient env maxConns i appId st with
      | mk st1 res =>
          have hst1 : st1.length ≤ maxConns := by
            have h2 := getOrConnect_state_length env maxConns i appId st h
            rw [hg] at h2
            exact h2
          cases res with
          | error e =>
              by_cases he : e = HcErr.upstreamUnavailable
              · simp only [he, eq_self_iff_true, if_true]
                exact ih _ _ hst1
              · simpa [he] using hst1
          | ok ws =>
              cases hx : env.exec i ws with
              | ok r => simpa [hx] using hst1
              | error e =>
                  by_cases he : isWsErr e = true
                  · simp only [hx, he, if_true]
                    exact ih _ _
                      (le_trans (length_eraseKey_le appId st1) hst1)
                  · simpa [hx, he] using hst1

/-- Claim C3: after any pool operation returns
(`get_or_connect_app_client`, `remove_app_client`, or `call`), the
number of entries in the client map stays within
`max_app_connections`. -/
theorem pool_size_invariant :
    (∀ (T : Type) (env : PoolEnv T) (maxConns i : Nat) (appId : String)
       (st : PoolState), st.length ≤ maxConns →
       ((getOrConnectAppClient env maxConns i appId st).1).length ≤
         maxConns) ∧
    (∀ (appId : String) (st : PoolState) (maxConns : Nat),
       st.length ≤ maxConns →
       (removeAppClient appId st).length ≤ maxConns) ∧
    (∀ (T : Type) (env : PoolEnv T) (maxConns : Nat) (appId : String)
       (st : PoolState), st.length ≤ maxConns →
       ((poolCall env maxConns appId st).1).length ≤ maxConns) :=
  ⟨fun _ env maxConns i appId st h =>
      getOrConnect_state_length env maxConns i appId st h,
   fun appId st _maxConns h =>
      le_trans (length_eraseKey_le appId st) h,
   fun _ env maxConns appId st h =>
      poolCallAux_state_length env maxConns appId 3 0 st h⟩

/-- Witness for C3 at concrete pools: an insertion that triggers
eviction, a removal, and a full `call`. -/
theorem pool_size_invariant_witness :
    ((getOrConnectAppClient envC4 2 0 "c" stTie).1).length ≤ 2 ∧
    (removeAppClient "b" stTie).length ≤ 2 ∧
    ((poolCall envC1WsExec 2 "c" stC).1).length ≤ 2 :=
  ⟨pool_size_invariant.1 Unit envC4 2 0 "c" stTie (by decide),
   pool_size_invariant.2.1 "b" stTie 2 (by decide),
   pool_size_invariant.2.2 Nat envC1WsExec 2 "c" stC (by decide)⟩

/-- Helper: the selected entry is the first entry in iteration order
whose `opened_at` is minimal. -/
theorem minOpenedEntry_spec :
    ∀ (st : PoolState) m, minOpenedEntry st = some m →
      ∃ pre suf, st = pre ++ m :: suf ∧
        (∀ e ∈ pre, m.2.openedAt < e.2.openedAt) ∧
        (∀ e ∈ st, m.2.openedAt ≤ e.2.openedAt) := by
  intro st
  induction st with
  | nil => intro m h; simp [minOpenedEntry] at h
  | cons e rest ih =>
      intro m h
      simp only [minOpenedEntry] at h
      cases hr : minOpenedEntry rest with
      | none =>
          have hrest : rest = [] := (minOpenedEntry_eq_none rest).mp hr
          simp only [hr, Option.some.injEq] at h
          subst h
          subst hrest
          exact ⟨[], [], rfl, by simp, by simp⟩
      | some mr =>
          simp only [hr] at h
          obtain ⟨pre, suf, hsplit, hpre, hmin⟩ := ih mr hr
          split at h <;> simp only [Option.some.injEq] at h <;> subst h
          · rename_i hle
            refine ⟨[], rest, rfl, by simp, ?_⟩
            intro f hf
            rcases List.mem_cons.mp hf with hfe | hfr
            · subst hfe; exact le_refl _
            · exact le_trans hle (hmin f hfr)
          · rename_i hgt
            refine ⟨e :: pre, suf, by rw [hsplit, List.cons_append], ?_, ?_⟩
            · intro f hf
              rcases List.mem_cons.mp hf with hfe | hfp
              · subst hfe; omega
              · exact hpre f hfp
            · intro f hf
              rcases List.mem_cons.mp hf with hfe | hfr
              · subst hfe; omega
              · exact hmin f hfr

/-- Helper: with pairwise distinct keys, erasing the key of an entry in
the middle of the pool removes exactly that entry. -/
theorem eraseKey_middle_of_nodup :
    ∀ (pre : PoolState) (m : String × AppWebsocketWithState)
      (suf : PoolState),
      ((pre ++ m :: suf).map Prod.fst).Nodup →
      eraseKey m.1 (pre ++ m :: suf) = pre ++ suf := by
  intro pre
  induction pre with
  | nil =>
      intro m suf _
      simp [eraseKey, List.eraseP_cons]
  | cons p pre ih =>
      intro m suf hnodup
      have hnd : (p.1 :: ((pre ++ m :: suf).map Prod.fst)).Nodup := by
        simpa using hnodup
      have h1 := (List.nodup_cons.mp hnd).1
      have h2 := (List.nodup_cons.mp hnd).2
      have hne : p.1 ≠ m.1 := by
        intro hcontr
        exact h1 (by
          rw [hcontr]
          exact List.mem_map_of_mem Prod.fst (by simp))
      have hbeq : (p.1 == m.1) = false := by simp [hne]
      simp only [List.cons_append, eraseKey, List.eraseP_cons, hbeq,
        cond_false]
      have hrec := ih m suf (by simpa using h2)
      simp only [eraseKey] at hrec
      rw [hrec]

/-- Counterexample for C4: with two entries sharing the minimal
`opened_at`, the evicted entry is the first in the map's iteration
order (`b`), not the one selected by id ordering (`a` sorts before
`b`). -/
theorem eviction_tie_not_id_ordered :
    getOrConnectAppClient envC4 2 0 "c" stTie =
      ([("a", ⟨11, 5⟩), entC], .ok 12) ∧
    stTie.map (fun e => e.2.openedAt) = [5, 5] ∧
    "a".data = ['a'] ∧ "b".data = ['b'] ∧ 'a' < 'b' :=
  ⟨rfl, rfl, rfl, rfl, by decide⟩

/-- Claim C4 (amended): when inserting a new connection makes the pool
exceed `max_app_connections`, exactly one entry is evicted, namely an
entry whose `opened_at` is minimal; among several entries sharing the
minimal `opened_at` the evicted one is the first in the map's iteration
order, not the one given by id ordering. -/
theorem eviction_policy {T : Type} (env : PoolEnv T) (maxConns i : Nat)
    (appId : String) (st : PoolState) (ws : Nat)
    (hlook : lookupKey st appId = none)
    (hconn : env.connect i = .ok ws)
    (hover : st.length + 1 > maxConns) :
    ∃ victim pre suf,
      minOpenedEntry (st ++ [(appId, AppWebsocketWithState.mk ws (env.now i))]) = some victim ∧
      st ++ [(appId, AppWebsocketWithState.mk ws (env.now i))] = pre ++ victim :: suf ∧
      (∀ e ∈ pre, victim.2.openedAt < e.2.openedAt) ∧
      (∀ e ∈ st ++ [(appId, AppWebsocketWithState.mk ws (env.now i))],
        victim.2.openedAt ≤ e.2.openedAt) ∧
      getOrConnectAppClient env maxConns i appId st =
        (eraseKey victim.1 (st ++ [(appId, AppWebsocketWithState.mk ws (env.now i))]), .ok ws) ∧
      (eraseKey victim.1 (st ++ [(appId, AppWebsocketWithState.mk ws (env.now i))])).length + 1 =
        (st ++ [(appId, AppWebsocketWithState.mk ws (env.now i))]).length ∧
      (((st ++ [(appId, AppWebsocketWithState.mk ws (env.now i))]).map Prod.fst).Nodup →
        eraseKey victim.1 (st ++ [(appId, AppWebsocketWithState.mk ws (env.now i))]) =
          pre ++ suf) := by
  set st1 : PoolState := st ++ [(appId, AppWebsocketWithState.mk ws (env.now i))] with hst1
  cases hm : minOpenedEntry st1 with
  | none =>
      exfalso
      have := (minOpenedEntry_eq_none st1).mp hm
      simp [hst1] at this
  | some victim =>
      obtain ⟨pre, suf, hsplit, hpre, hmin⟩ := minOpenedEntry_spec st1 victim hm
      have hmem := minOpenedEntry_mem st1 victim hm
      have hlen : (eraseKey victim.1 st1).length + 1 = st1.length :=
        List.length_eraseP_add_one hmem (by simp)
      refine ⟨victim, pre, suf, rfl, hsplit, hpre, hmin, ?_, hlen, ?_⟩
      · have hg : getOrConnectAppClient env maxConns i appId st =
            (evictIfOver maxConns st1, .ok ws) := by
          unfold getOrConnectAppClient
          simp only [hlook, hconn, hst1]
        have hm2 : minOpenedAtKey st1 = some victim.1 := by
          unfold minOpenedAtKey
          rw [hm]
          rfl
        have hev : evictIfOver maxConns st1 = eraseKey victim.1 st1 := by
          unfold evictIfOver
          rw [if_pos (by rw [hst1]; simp; omega), hm2]
        rw [hg, hev]
      · intro hnodup
        rw [hsplit] at hnodup ⊢
        exact eraseKey_middle_of_nodup pre victim suf hnodup

/-- Witness for the amended C4 at a concrete over-full pool with an
`opened_at` tie. -/
theorem eviction_policy_witness :
    ∃ victim pre suf,
      minOpenedEntry (stTie ++ [("c", AppWebsocketWithState.mk 12 (envC4.now 0))]) = some victim ∧
      stTie ++ [("c", AppWebsocketWithState.mk 12 (envC4.now 0))] = pre ++ victim :: suf ∧
      (∀ e ∈ pre, victim.2.openedAt < e.2.openedAt) ∧
      (∀ e ∈ stTie ++ [("c", AppWebsocketWithState.mk 12 (envC4.now 0))],
        victim.2.openedAt ≤ e.2.openedAt) ∧
      getOrConnectAppClient envC4 2 0 "c" stTie =
        (eraseKey victim.1 (stTie ++ [("c", AppWebsocketWithState.mk 12 (envC4.now 0))]), .ok 12) ∧
      (eraseKey victim.1 (stTie ++ [("c", AppWebsocketWithState.mk 12 (envC4.now 0))])).length + 1 =
        (stTie ++ [("c", AppWebsocketWithState.mk 12 (envC4.now 0))]).length ∧
      (((stTie ++ [("c", AppWebsocketWithState.mk 12 (envC4.now 0))]).map Prod.fst).Nodup →
        eraseKey victim.1 (stTie ++ [("c", AppWebsocketWithState.mk 12 (envC4.now 0))]) =
          pre ++ suf) :=
  eviction_policy envC4 2 0 "c" stTie 12 rfl rfl (by decide)

/-- Helper: when the cached search has no unique match, its `.ok()`
projection is `none`. -/
theorem chooseUnique_none_of_len_ne_one (dnaHash : Nat)
    (coordinatorIdentifier : String) (cache : List AppInfoM)
    (h : (cache.filter (appMatches dnaHash coordinatorIdentifier)).length ≠
      1) :
    (chooseUniqueApp dnaHash coordinatorIdentifier cache).toOption =
      none := by
  unfold chooseUniqueApp
  cases hf : cache.filter (appMatches dnaHash coordinatorIdentifier) with
  | nil => rfl
  | cons a tl =>
      cases tl with
      | nil => exact absurd (by rw [hf]; rfl) h
      | cons b tl2 => rfl

/-- Counterexample for C5: a cached search that finds two matching
installed apps does not return `MultipleMatching`; it triggers a
refresh, and when the admin `list_apps` call fails the result is
`NotInstalled`. -/
theorem app_selection_cached_multiple_counterexample :
    tryGetValidApp 7 "app1" cacheTwo none ["app1"] =
      (.error .notInstalled, cacheTwo) ∧
    (cacheTwo.filter (appMatches 7 "app1")).length = 2 :=
  ⟨rfl, rfl⟩

/-- Claim C5 (amended): a unique cached match goes straight to the
allow-list check; when the cached search finds no unique match (none or
several), the cache is refreshed, a failed or empty refresh yields
`NotInstalled`, and otherwise the selection — `NotInstalled`,
`MultipleMatching`, `NotAllowed` or the unique descriptor — is decided
by the refreshed list. -/
theorem try_get_valid_app_characterization (dnaHash : Nat)
    (coordinatorIdentifier : String) (cache : List AppInfoM)
    (listAppsResult : Option (List AppInfoM))
    (allowedApps : List String) :
    (∀ a, cache.filter (appMatches dnaHash coordinatorIdentifier) = [a] →
      tryGetValidApp dnaHash coordinatorIdentifier cache listAppsResult
          allowedApps =
        ((if allowedApps.contains a.installedAppId then .ok a
          else .error .notAllowed), cache)) ∧
    ((cache.filter (appMatches dnaHash coordinatorIdentifier)).length ≠ 1 →
      (listAppsResult = none ∨ listAppsResult = some []) →
      tryGetValidApp dnaHash coordinatorIdentifier cache listAppsResult
          allowedApps = (.error .notInstalled, cache)) ∧
    (∀ l,
      (cache.filter (appMatches dnaHash coordinatorIdentifier)).length ≠ 1 →
      listAppsResult = some l → l ≠ [] →
      tryGetValidApp dnaHash coordinatorIdentifier cache listAppsResult
          allowedApps =
        (match chooseUniqueApp dnaHash coordinatorIdentifier l with
         | .error e => (.error e, l)
         | .ok a =>
             ((if allowedApps.contains a.installedAppId then .ok a
               else .error .notAllowed), l))) := by
  refine ⟨?_, ?_, ?_⟩
  · intro a ha
    have hchoose : chooseUniqueApp dnaHash coordinatorIdentifier cache =
        .ok a := by
      unfold chooseUniqueApp
      rw [ha]
    simp only [tryGetValidApp, hchoose, Except.toOption]
    split <;> rfl
  · intro hlen hfetch
    have hcached :=
      chooseUnique_none_of_len_ne_one dnaHash coordinatorIdentifier cache hlen
    rcases hfetch with h2 | h2 <;> subst h2 <;>
      simp [tryGetValidApp, hcached]
  · intro l hlen hfetch hne
    subst hfetch
    have hcached :=
      chooseUnique_none_of_len_ne_one dnaHash coordinatorIdentifier cache hlen
    have hempty : l.isEmpty = false := by
      cases l with
      | nil => exact absurd rfl hne
      | cons x xs => rfl
    cases hc : chooseUniqueApp dnaHash coordinatorIdentifier l with
    | error e => simp [tryGetValidApp, hcached, hempty, hc]
    | ok a =>
        simp [tryGetValidApp, hcached, hempty, hc]
        split <;> rfl

/-- Witness for the amended C5: a unique cached match, a failed refresh,
and a refresh that decides the selection. -/
theorem try_get_valid_app_characterization_witness :
    tryGetValidApp 7 "app1" [appMatch1] none ["app1"] =
      ((if (["app1"] : List String).contains appMatch1.installedAppId then
          .ok appMatch1
        else .error .notAllowed), [appMatch1]) ∧
    tryGetValidApp 7 "app1" cacheTwo (some []) ["app1"] =
      (.error .notInstalled, cacheTwo) ∧
    tryGetValidApp 7 "app1" cacheTwo (some [appMatch1]) ["app1"] =
      (match chooseUniqueApp 7 "app1" [appMatch1] with
       | .error e => (.error e, [appMatch1])
       | .ok a =>
           ((if (["app1"] : List String).contains a.installedAppId then
               .ok a
             else .error .notAllowed), [appMatch1])) :=
  ⟨(try_get_valid_app_characterization 7 "app1" [appMatch1] none
      ["app1"]).1 appMatch1 rfl,
   (try_get_valid_app_characterization 7 "app1" cacheTwo (some [])
      ["app1"]).2.1 (by decide) (Or.inr rfl),
   (try_get_valid_app_characterization 7 "app1" cacheTwo
      (some [appMatch1]) ["app1"]).2.2 [appMatch1] (by decide) rfl
      (by decide)⟩

/-- Claim C10: when the cached search finds no matching app and the
admin `list_apps` call fails or returns an empty list,
`try_get_valid_app` returns `NotInstalled` and leaves the cache
unchanged; the upstream failure is not propagated (the result type has
no upstream error at all). -/
theorem refresh_failure_is_not_installed (dnaHash : Nat)
    (coordinatorIdentifier : String) (cache : List AppInfoM)
    (listAppsResult : Option (List AppInfoM)) (allowedApps : List String)
    (hnone : cache.filter (appMatches dnaHash coordinatorIdentifier) = [])
    (hfail : listAppsResult = none ∨ listAppsResult = some []) :
    tryGetValidApp dnaHash coordinatorIdentifier cache listAppsResult
      allowedApps = (.error .notInstalled, cache) := by
  have hcached : (chooseUniqueApp dnaHash coordinatorIdentifier
      cache).toOption = none := by
    unfold chooseUniqueApp
    rw [hnone]
    rfl
  rcases hfail with h2 | h2 <;> subst h2 <;>
    simp [tryGetValidApp, hcached]

/-- Witness for C10: an empty cache with a failed and with an empty
refresh. -/
theorem refresh_failure_is_not_installed_witness :
    tryGetValidApp 7 "app1" [] none ["app1"] =
      (.error .notInstalled, []) ∧
    tryGetValidApp 9 "app2" cacheTwo (some []) [] =
      (.error .notInstalled, cacheTwo) :=
  ⟨refresh_failure_is_not_installed 7 "app1" [] none ["app1"] rfl
      (Or.inl rfl),
   refresh_failure_is_not_installed 9 "app2" cacheTwo (some []) [] rfl
      (Or.inr rfl)⟩

/-- Counterexample for C2: when the retried capability call fails with a
second transport-level websocket error, `AdminConn::call` returns that
websocket error wrapped as a `HolochainError`, not
`UpstreamUnavailable`. -/
theorem admin_call_second_ws_error_counterexample :
    (adminCall urlW adminEnvTransportTwice).1 =
      .error (.holochainError (.websocketError "second")) ∧
    HcErr.holochainError (.websocketError "second") ≠
      HcErr.upstreamUnavailable :=
  ⟨rfl, by decide⟩

/-- Claim C2 (amended): at most one reconnect attempt per `call`;
protocol-level errors propagate unchanged without reconnection; a failed
reconnect attempt yields `UpstreamUnavailable`; when the reconnect
succeeds the capability call is retried exactly once and its outcome,
including a second transport error, is returned as-is. -/
theorem admin_call_retry_semantics {T : Type} (url : AdminUrl)
    (env : AdminEnv T) :
    ((adminCall url env).2.1 ≤ 1) ∧
    (∀ e, env.firstCall = .error e → isWebsocketError e = false →
      adminCall url env = (.error (.holochainError e), 0, 1)) ∧
    (∀ e, env.firstCall = .error e → isWebsocketError e = true →
      (∃ s, formatWsUrl url = .ok s) →
      ((∀ ce, env.connectAttempt = .error ce →
         adminCall url env = (.error .upstreamUnavailable, 1, 1)) ∧
       (env.connectAttempt = .ok () →
         adminCall url env =
           (env.secondCall.mapError HcErr.holochainError, 1, 2)))) := by
  refine ⟨?_, ?_, ?_⟩
  · unfold adminCall
    cases hf : env.firstCall with
    | ok r => simp
    | error e =>
        by_cases hws : isWebsocketError e = true
        · simp only [hws, if_true]
          cases hr : adminReconnect url env with
          | ok u => simp
          | error ce => simp
        · simp [hws]
  · intro e hf hws
    unfold adminCall
    rw [hf]
    simp [hws]
  · rintro e hf hws ⟨s, hfmt⟩
    constructor
    · intro ce hce
      unfold adminCall adminReconnect
      rw [hf, hfmt, hce]
      simp [hws]
    · intro hok
      unfold adminCall adminReconnect
      rw [hf, hfmt, hok]
      simp [hws]

/-- Witness for C2 at concrete environments: protocol error passthrough,
failed reconnect, and retried call after a successful reconnect. -/
theorem admin_call_retry_semantics_witness :
    (adminCall urlW adminEnvProtocol).2.1 ≤ 1 ∧
    adminCall urlW adminEnvProtocol =
      (.error (.holochainError (.otherApi "protocol")), 0, 1) ∧
    adminCall urlW adminEnvConnFail = (.error .upstreamUnavailable, 1, 1) ∧
    adminCall urlW adminEnvTransportTwice =
      ((Except.error (ConductorApiError.websocketError "second")).mapError
        HcErr.holochainError, 1, 2) :=
  ⟨(admin_call_retry_semantics urlW adminEnvProtocol).1,
   (admin_call_retry_semantics urlW adminEnvProtocol).2.1
     (ConductorApiError.otherApi "protocol") rfl rfl,
   ((admin_call_retry_semantics urlW adminEnvConnFail).2.2
     (ConductorApiError.websocketError "first") rfl rfl
     ⟨"127.0.0.1:8888", rfl⟩).1 "refused" rfl,
   ((admin_call_retry_semantics urlW adminEnvTransportTwice).2.2
     (ConductorApiError.websocketError "first") rfl rfl
     ⟨"127.0.0.1:8888", rfl⟩).2 rfl⟩

/-- Witness for C6 at the ten-byte limit: an eleven-byte encoded payload
is rejected with the documented message, a ten-byte one is not. -/
theorem payload_size_check_on_encoded_length_witness :
    (zomeCall cfgW "app1" "z" "f" (some payload11) =
      .error (.requestMalformed (payloadSizeMsg cfgW.payloadLimitBytes)) ∧
     renderRequestMalformed (payloadSizeMsg cfgW.payloadLimitBytes) =
      (400, "Request is malformed: " ++
        payloadSizeMsg cfgW.payloadLimitBytes)) ∧
    zomeCall cfgW "app1" "z" "f" (some payload10) ≠
      .error (.requestMalformed (payloadSizeMsg cfgW.payloadLimitBytes)) :=
  ⟨(payload_size_check_on_encoded_length cfgW "app1" "z" "f" payload11).1
      (by decide),
   (payload_size_check_on_encoded_length cfgW "app1" "z" "f" payload10).2
      (by decide)⟩

/-! ### Round-trip development: digits and hexadecimal -/

/-- Appending one digit multiplies the accumulated value by ten. -/
theorem digitsValue_append_single (ds : List Nat) (d : Nat) :
    digitsValue (ds ++ [d]) = digitsValue ds * 10 + (d - 48) := by
  simp [digitsValue, List.foldl_append]

/-- The decimal printer emits a non-empty digit string whose value is
the printed number. -/
theorem natDigitsAux_spec :
    ∀ fuel n, n < fuel →
      natDigitsAux fuel n ≠ [] ∧
      (∀ d ∈ natDigitsAux fuel n, 48 ≤ d ∧ d ≤ 57) ∧
      digitsValue (natDigitsAux fuel n) = n := by
  intro fuel
  induction fuel with
  | zero => intro n h; exact absurd h (by omega)
  | succ f ih =>
      intro n h
      unfold natDigitsAux
      by_cases hn : n < 10
      · rw [if_pos hn]
        refine ⟨by simp, ?_, ?_⟩
        · intro d hd
          simp at hd
          omega
        · simp [digitsValue]
      · rw [if_neg hn]
        obtain ⟨hne, hdig, hval⟩ := ih (n / 10) (by omega)
        refine ⟨by simp, ?_, ?_⟩
        · intro d hd
          rcases List.mem_append.mp hd with h1 | h2
          · exact hdig d h1
          · simp at h2
            omega
        · rw [digitsValue_append_single, hval]
          omega

/-- `natDigits` specification. -/
theorem natDigits_spec (n : Nat) :
    natDigits n ≠ [] ∧ (∀ d ∈ natDigits n, 48 ≤ d ∧ d ≤ 57) ∧
    digitsValue (natDigits n) = n :=
  natDigitsAux_spec (n + 1) n (by omega)

/-- A maximal digit run is split exactly at the first non-digit. -/
theorem takeDigits_append :
    ∀ (ds rest : List Nat), (∀ d ∈ ds, 48 ≤ d ∧ d ≤ 57) →
      noDigitHead rest → takeDigits (ds ++ rest) = (ds, rest) := by
  intro ds
  induction ds with
  | nil =>
      intro rest _ hrest
      cases rest with
      | nil => rfl
      | cons c cs =>
          have hc := hrest c rfl
          simp only [List.nil_append]
          unfold takeDigits
          rw [if_neg hc]
  | cons d ds ih =>
      intro rest hds hrest
      have hd := hds d (by simp)
      simp only [List.cons_append]
      unfold takeDigits
      rw [if_pos hd, ih rest (fun x hx => hds x (by simp [hx])) hrest]

/-- Hexadecimal digit round-trip. -/
theorem hexVal_hexDigit : ∀ d, d < 16 → hexVal (hexDigit d) = some d := by
  decide

/-- Four-digit hexadecimal round-trip. -/
theorem hexVal4_hex4 (n : Nat) (h : n < 65536) :
    hexVal4 (hexDigit (n / 4096 % 16)) (hexDigit (n / 256 % 16))
      (hexDigit (n / 16 % 16)) (hexDigit (n % 16)) = some n := by
  unfold hexVal4
  rw [hexVal_hexDigit _ (by omega), hexVal_hexDigit _ (by omega),
    hexVal_hexDigit _ (by omega), hexVal_hexDigit _ (by omega)]
  simp only [Option.some.injEq]
  omega

/-! ### Round-trip development: strings -/

/-- Step: a closing quote ends the string body. -/
theorem parseStrRaw_quote (rest : List Nat) :
    parseStrRaw (34 :: rest) = some ([], rest) := by
  rw [parseStrRaw.eq_def]
  simp

/-- Step: a simple escape decodes to its character. -/
theorem parseStrRaw_esc_simple (e d : Nat) (rest1 : List Nat)
    (he : escDecode e = some d) (h117 : ¬e = 117) :
    parseStrRaw (92 :: e :: rest1) = consStr d (parseStrRaw rest1) := by
  rw [parseStrRaw.eq_def]
  simp [he, h117]

/-- Step: a hexadecimal escape decodes to its code unit. -/
theorem parseStrRaw_u (h1 h2 h3 h4 h : Nat) (rest2 : List Nat)
    (hx : hexVal4 h1 h2 h3 h4 = some h) :
    parseStrRaw (92 :: 117 :: h1 :: h2 :: h3 :: h4 :: rest2) =
      consStr h (parseStrRaw rest2) := by
  rw [parseStrRaw.eq_def]
  simp [hx]

/-- Step: an unescaped character is taken as is. -/
theorem parseStrRaw_plain (c : Nat) (rest : List Nat) (h34 : ¬c = 34)
    (h92 : ¬c = 92) :
    parseStrRaw (c :: rest) = consStr c (parseStrRaw rest) := by
  rw [parseStrRaw.eq_def]
  simp [h34, h92]

/-- Parsing a printed string body yields its UTF-16 code units and
leaves the continuation untouched. -/
theorem parseStrRaw_escape :
    ∀ (s rest : List Nat), wfStr s = true →
      parseStrRaw (escapeStr s ++ 34 :: rest) = some (toUnits s, rest) := by
  intro s
  induction s with
  | nil =>
      intro rest _
      simp [escapeStr, parseStrRaw_quote, toUnits]
  | cons c s ih =>
      intro rest hwf
      have hwfc : c < 55296 ∨ (57344 ≤ c ∧ c < 1114112) := by
        have h1 : wfChar c = true := by
          simp [wfStr] at hwf
          exact hwf.1
        simpa [wfChar] using h1
      have hwfs : wfStr s = true := by
        simp [wfStr] at hwf ⊢
        exact hwf.2
      have ihs := ih rest hwfs
      simp only [escapeStr, List.append_assoc, toUnits]
      unfold escapeChar
      by_cases h34 : c = 34
      · subst h34
        rw [if_pos rfl]
        simp only [List.cons_append, List.nil_append]
        rw [parseStrRaw_esc_simple 34 34 _ (by decide) (by decide), ihs]
        simp [consStr]
      · rw [if_neg h34]
        by_cases h92 : c = 92
        · subst h92
          rw [if_pos rfl]
          simp only [List.cons_append, List.nil_append]
          rw [parseStrRaw_esc_simple 92 92 _ (by decide) (by decide), ihs]
          simp [consStr]
        · rw [if_neg h92]
          by_cases hprint : 32 ≤ c ∧ c ≤ 126
          · rw [if_pos hprint]
            have hlt : c < 65536 := by omega
            simp only [List.cons_append, List.nil_append]
            rw [parseStrRaw_plain c _ h34 h92, ihs]
            simp [consStr, hlt]
          · rw [if_neg hprint]
            by_cases hbmp : c < 65536
            · rw [if_pos hbmp]
              have hx := hexVal4_hex4 c hbmp
              simp only [hex4, List.cons_append, List.nil_append]
              rw [parseStrRaw_u _ _ _ _ _ _ hx, ihs]
              simp [consStr, hbmp]
            · rw [if_neg hbmp]
              have hhi := hexVal4_hex4 (55296 + (c - 65536) / 1024)
                (by omega)
              have hlo := hexVal4_hex4 (56320 + (c - 65536) % 1024)
                (by omega)
              simp only [hex4, List.cons_append, List.nil_append,
                List.append_assoc]
              rw [parseStrRaw_u _ _ _ _ _ _ hhi]
              rw [parseStrRaw_u _ _ _ _ _ _ hlo, ihs]
              simp [consStr, hbmp]

/-- Step: a unit outside the surrogate ranges passes through. -/
theorem combineSurrogates_plain (c : Nat) (rest : List Nat)
    (h1 : ¬(55296 ≤ c ∧ c < 56320)) (h2 : ¬(56320 ≤ c ∧ c < 57344)) :
    combineSurrogates (c :: rest) =
      match combineSurrogates rest with
      | some s => some (c :: s)
      | none => none := by
  rw [combineSurrogates.eq_def]
  simp [h1, h2]

/-- Step: a high surrogate followed by a low surrogate recombines. -/
theorem combineSurrogates_pair (c lo : Nat) (rest2 : List Nat)
    (h1 : 55296 ≤ c ∧ c < 56320) (h2 : 56320 ≤ lo ∧ lo < 57344) :
    combineSurrogates (c :: lo :: rest2) =
      match combineSurrogates rest2 with
      | some s => some ((65536 + (c - 55296) * 1024 + (lo - 56320)) :: s)
      | none => none := by
  rw [combineSurrogates.eq_def]
  simp [h1, h2]

/-- Recombining the code units of well-formed scalar values recovers
the original string. -/
theorem combineSurrogates_toUnits :
    ∀ (s : List Nat), wfStr s = true →
      combineSurrogates (toUnits s) = some s := by
  intro s
  induction s with
  | nil => intro _; simp [toUnits, combineSurrogates]
  | cons c s ih =>
      intro hwf
      have hwfc : c < 55296 ∨ (57344 ≤ c ∧ c < 1114112) := by
        have h1 : wfChar c = true := by
          simp [wfStr] at hwf
          exact hwf.1
        simpa [wfChar] using h1
      have hwfs : wfStr s = true := by
        simp [wfStr] at hwf ⊢
        exact hwf.2
      have ihs := ih hwfs
      simp only [toUnits]
      by_cases hbmp : c < 65536
      · have hns1 : ¬(55296 ≤ c ∧ c < 56320) := by omega
        have hns2 : ¬(56320 ≤ c ∧ c < 57344) := by omega
        rw [if_pos hbmp]
        simp only [List.cons_append, List.nil_append]
        rw [combineSurrogates_plain c _ hns1 hns2, ihs]
      · have h1 : 55296 ≤ 55296 + (c - 65536) / 1024 ∧
            55296 + (c - 65536) / 1024 < 56320 := by omega
        have h2 : 56320 ≤ 56320 + (c - 65536) % 1024 ∧
            56320 + (c - 65536) % 1024 < 57344 := by omega
        rw [if_neg hbmp]
        simp only [List.cons_append, List.nil_append]
        rw [combineSurrogates_pair _ _ _ h1 h2, ihs]
        have hc : 65536 + (55296 + (c - 65536) / 1024 - 55296) * 1024 +
            (56320 + (c - 65536) % 1024 - 56320) = c := by omega
        rw [hc]

/-- Parsing a printed string body recovers the string and leaves the
continuation untouched. -/
theorem parseStrChars_escape (s rest : List Nat) (hwf : wfStr s = true) :
    parseStrChars (escapeStr s ++ 34 :: rest) = some (s, rest) := by
  unfold parseStrChars
  simp only [parseStrRaw_escape s rest hwf, combineSurrogates_toUnits s hwf]

/-! ### Round-trip development: numbers and heads -/

/-- Every value needs at least one unit of parser fuel. -/
theorem needV_pos : ∀ v : JValue, 1 ≤ needV v := by
  intro v
  cases v <;> simp [needV]

/-- The value parser consumes a maximal leading digit run. -/
theorem parseVal_digits (f : Nat) (d : Nat) (ds rest : List Nat)
    (hds : ∀ x ∈ d :: ds, 48 ≤ x ∧ x ≤ 57) (hrest : noDigitHead rest) :
    parseVal (f + 1) ((d :: ds) ++ rest) =
      some (.num (Int.ofNat (digitsValue (d :: ds))), rest) := by
  have hd := hds d (by simp)
  have htd : takeDigits (d :: (ds ++ rest)) = (d :: ds, rest) := by
    have h := takeDigits_append (d :: ds) rest hds hrest
    simpa using h
  have h110 : ¬(d = 110) := by omega
  have h116 : ¬(d = 116) := by omega
  have h102 : ¬(d = 102) := by omega
  have h34 : ¬(d = 34) := by omega
  have h91 : ¬(d = 91) := by omega
  have h123 : ¬(d = 123) := by omega
  have h45 : ¬(d = 45) := by omega
  simp only [List.cons_append]
  simp [parseVal, h110, h116, h102, h34, h91, h123, h45, hd, htd]

/-- The value parser inverts the decimal printer. -/
theorem parseVal_printInt (f : Nat) (n : Int) (rest : List Nat)
    (hrest : noDigitHead rest) :
    parseVal (f + 1) (printInt n ++ rest) = some (.num n, rest) := by
  by_cases hn : n < 0
  · obtain ⟨hne, hdig, hval⟩ := natDigits_spec n.natAbs
    have htd : takeDigits (natDigits n.natAbs ++ rest) =
        (natDigits n.natAbs, rest) := takeDigits_append _ _ hdig hrest
    rw [printInt, if_pos hn]
    simp only [List.cons_append]
    simp [parseVal, htd, hne, hval]
    rw [abs_of_neg hn]
    exact neg_neg n
  · obtain ⟨hne, hdig, hval⟩ := natDigits_spec n.toNat
    rw [printInt, if_neg hn]
    cases h : natDigits n.toNat with
    | nil => exact absurd h hne
    | cons d ds =>
        rw [h] at hdig hval
        rw [parseVal_digits f d ds rest hdig hrest, hval]
        have h1 : Int.ofNat n.toNat = (n.toNat : Int) := rfl
        have h2 : (n.toNat : Int) = n := by omega
        rw [h1, h2]

/-- The printed form of a value starts with a character that closes
neither an array nor an object. -/
theorem printVal_head (v : JValue) :
    ∃ c t, printVal v = c :: t ∧ ¬(c = 93) ∧ ¬(c = 125) := by
  cases v with
  | null => exact ⟨110, _, rfl, by decide, by decide⟩
  | bool b =>
      cases b with
      | true =>
          exact ⟨116, [114, 117, 101], by simp [printVal], by decide,
            by decide⟩
      | false =>
          exact ⟨102, [97, 108, 115, 101], by simp [printVal], by decide,
            by decide⟩
  | num n =>
      by_cases hn : n < 0
      · exact ⟨45, natDigits n.natAbs,
          by simp [printVal, printInt, hn], by decide, by decide⟩
      · obtain ⟨hne, hdig, _⟩ := natDigits_spec n.toNat
        cases h : natDigits n.toNat with
        | nil => exact absurd h hne
        | cons d ds =>
            have hd := hdig d (by rw [h]; simp)
            exact ⟨d, ds, by simp [printVal, printInt, hn, h],
              by omega, by omega⟩
  | str s => exact ⟨34, _, rfl, by decide, by decide⟩
  | arr items => exact ⟨91, _, rfl, by decide, by decide⟩
  | obj members => exact ⟨123, _, rfl, by decide, by decide⟩

/-- An element-tail continuation never starts with a digit. -/
theorem noDigitHead_itemsTail (tl : JValueList) (rest : List Nat) :
    noDigitHead (printItemsTail tl ++ 93 :: rest) := by
  cases tl with
  | nil =>
      intro c hc
      simp [printItemsTail] at hc
      omega
  | cons v t =>
      intro c hc
      simp [printItemsTail] at hc
      omega

/-- A member-tail continuation never starts with a digit. -/
theorem noDigitHead_membersTail (tl : JMemberList) (rest : List Nat) :
    noDigitHead (printMembersTail tl ++ 125 :: rest) := by
  cases tl with
  | nil =>
      intro c hc
      simp [printMembersTail] at hc
      omega
  | cons k v t =>
      intro c hc
      simp [printMembersTail] at hc
      omega

/-! ### Round-trip development: the parser inverts the printer -/

mutual

/-- The parser inverts the printer on a single value. -/
theorem ppVal (f : Nat) (v : JValue) (rest : List Nat)
    (hwf : wfVal v = true) (hf : needV v ≤ f) (hrest : noDigitHead rest) :
    parseVal f (printVal v ++ rest) = some (v, rest) := by
  cases f with
  | zero => exact absurd hf (by have := needV_pos v; omega)
  | succ f =>
      cases v with
      | null => simp [printVal, parseVal]
      | bool b => cases b <;> simp [printVal, parseVal]
      | num n => exact parseVal_printInt f n rest hrest
      | str s =>
          have hs : parseStrChars (escapeStr s ++ 34 :: rest) =
              some (s, rest) :=
            parseStrChars_escape s rest (by simpa [wfVal] using hwf)
          simp [printVal, parseVal, List.append_assoc, hs]
      | arr items =>
          cases items with
          | nil => simp [printVal, printItems, parseVal]
          | cons v tl =>
              obtain ⟨c0, t0, hpv0, h93, _⟩ := printVal_head v
              have hwfl : wfList (JValueList.cons v tl) = true := by
                simpa [wfVal] using hwf
              have hfl : needL (JValueList.cons v tl) ≤ f ∧
                  lengthL (JValueList.cons v tl) ≤ f := by
                have hf2 : 1 + Nat.max (lengthL (JValueList.cons v tl))
                    (needL (JValueList.cons v tl)) ≤ f + 1 := hf
                have hmax : Nat.max (lengthL (JValueList.cons v tl))
                    (needL (JValueList.cons v tl)) ≤ f := by omega
                exact ⟨le_trans (Nat.le_max_right _ _) hmax,
                  le_trans (Nat.le_max_left _ _) hmax⟩
              have hitems := ppItems f f (JValueList.cons v tl) rest
                (by intro h; cases h) hwfl hfl.1 hfl.2
              have hrw : printVal (JValue.arr (JValueList.cons v tl)) ++
                  rest = 91 :: (printItems (JValueList.cons v tl) ++
                    93 :: rest) := by
                simp [printVal, List.append_assoc]
              have hc : ¬((printItems (JValueList.cons v tl) ++
                  93 :: rest).head? = some 93) := by
                simp [printItems, hpv0]
                exact h93
              rw [hrw]
              simp only [parseVal]
              rw [if_neg (by decide), if_neg (by decide), if_neg (by decide),
                if_neg (by decide)]
              simp only [eq_self_iff_true, if_true]
              rw [if_neg hc, hitems]
      | obj members =>
          cases members with
          | nil => simp [printVal, printMembers, parseVal]
          | cons k v tl =>
              have hwfm : wfMembers (JMemberList.cons k v tl) = true := by
                simpa [wfVal] using hwf
              have hfm : needM (JMemberList.cons k v tl) ≤ f ∧
                  lengthM (JMemberList.cons k v tl) ≤ f := by
                have hf2 : 1 + Nat.max (lengthM (JMemberList.cons k v tl))
                    (needM (JMemberList.cons k v tl)) ≤ f + 1 := hf
                have hmax : Nat.max (lengthM (JMemberList.cons k v tl))
                    (needM (JMemberList.cons k v tl)) ≤ f := by omega
                exact ⟨le_trans (Nat.le_max_right _ _) hmax,
                  le_trans (Nat.le_max_left _ _) hmax⟩
              have hmems := ppMembers f f (JMemberList.cons k v tl) rest
                (by intro h; cases h) hwfm hfm.1 hfm.2
              have hrw : printVal (JValue.obj (JMemberList.cons k v tl))
                  ++ rest = 123 :: (printMembers
                    (JMemberList.cons k v tl) ++ 125 :: rest) := by
                simp [printVal, List.append_assoc]
              have hc : ¬((printMembers (JMemberList.cons k v tl) ++
                  125 :: rest).head? = some 125) := by
                simp [printMembers]
              rw [hrw]
              simp only [parseVal]
              rw [if_neg (by decide), if_neg (by decide),
                if_neg (by decide), if_neg (by decide),
                if_neg (by decide)]
              simp only [eq_self_iff_true, if_true]
              rw [if_neg hc, hmems]
  termination_by sizeOf v

/-- The element parser inverts the element printer on non-empty lists. -/
theorem ppItems (f g : Nat) (items : JValueList) (rest : List Nat)
    (hne : ¬items = JValueList.nil) (hwf : wfList items = true)
    (hf : needL items ≤ f) (hg : lengthL items ≤ g) :
    parseItemsAux (parseVal f) g (printItems items ++ 93 :: rest) =
      some (items, rest) := by
  cases items with
  | nil => exact absurd rfl hne
  | cons v tl =>
      have hwfv : wfVal v = true := by
        simp [wfList] at hwf
        exact hwf.1
      have hwftl : wfList tl = true := by
        simp [wfList] at hwf
        exact hwf.2
      have hf2 : Nat.max (needV v) (needL tl) ≤ f := hf
      have hfv : needV v ≤ f := le_trans (Nat.le_max_left _ _) hf2
      have hftl : needL tl ≤ f := le_trans (Nat.le_max_right _ _) hf2
      cases g with
      | zero => exact absurd hg (by simp [lengthL])
      | succ g =>
          have hgtl : lengthL tl ≤ g := by
            simp [lengthL] at hg
            omega
          cases tl with
          | nil =>
              have hpv := ppVal f v (93 :: rest) hwfv hfv
                (by intro c hc; simp at hc; omega)
              simp [printItems, printItemsTail, parseItemsAux, hpv]
          | cons v2 tl2 =>
              have hpv := ppVal f v
                (printItemsTail (JValueList.cons v2 tl2) ++ 93 :: rest)
                hwfv hfv (noDigitHead_itemsTail _ rest)
              have hrec := ppItems f g (JValueList.cons v2 tl2) rest
                (by intro h; cases h) hwftl hftl hgtl
              simp only [printItemsTail, List.cons_append,
                List.append_assoc] at hpv
              simp only [printItems, printItemsTail, List.cons_append,
                List.append_assoc] at hrec ⊢
              simp [parseItemsAux, hpv, hrec]
  termination_by sizeOf items

/-- The member parser inverts the member printer on non-empty lists. -/
theorem ppMembers (f g : Nat) (members : JMemberList) (rest : List Nat)
    (hne : ¬members = JMemberList.nil) (hwf : wfMembers members = true)
    (hf : needM members ≤ f) (hg : lengthM members ≤ g) :
    parseMembersAux (parseVal f) g (printMembers members ++ 125 :: rest) =
      some (members, rest) := by
  cases members with
  | nil => exact absurd rfl hne
  | cons k v tl =>
      have hwfk : wfStr k = true := by
        simp [wfMembers] at hwf
        exact hwf.1.1
      have hwfv : wfVal v = true := by
        simp [wfMembers] at hwf
        exact hwf.1.2
      have hwftl : wfMembers tl = true := by
        simp [wfMembers] at hwf
        exact hwf.2
      have hf2 : Nat.max (needV v) (needM tl) ≤ f := hf
      have hfv : needV v ≤ f := le_trans (Nat.le_max_left _ _) hf2
      have hftl : needM tl ≤ f := le_trans (Nat.le_max_right _ _) hf2
      cases g with
      | zero => exact absurd hg (by simp [lengthM])
      | succ g =>
          have hgtl : lengthM tl ≤ g := by
            simp [lengthM] at hg
            omega
          cases tl with
          | nil =>
              have hk := parseStrChars_escape k
                (58 :: (printVal v ++ 125 :: rest)) hwfk
              have hpv := ppVal f v (125 :: rest) hwfv hfv
                (by intro c hc; simp at hc; omega)
              simp [printMembers, printMembersTail, parseMembersAux,
                List.append_assoc, hk, hpv]
          | cons k2 v2 tl2 =>
              have hk := parseStrChars_escape k
                (58 :: (printVal v ++
                  (printMembersTail (JMemberList.cons k2 v2 tl2) ++
                    125 :: rest))) hwfk
              have hpv := ppVal f v
                (printMembersTail (JMemberList.cons k2 v2 tl2) ++
                  125 :: rest) hwfv hfv (noDigitHead_membersTail _ rest)
              have hrec := ppMembers f g (JMemberList.cons k2 v2 tl2) rest
                (by intro h; cases h) hwftl hftl hgtl
              simp only [printMembersTail, List.cons_append,
                List.append_assoc] at hpv hk
              simp only [printMembers, printMembersTail, List.cons_append,
                List.append_assoc] at hrec ⊢
              simp [parseMembersAux, List.append_assoc, hk, hpv, hrec]
  termination_by sizeOf members

end

/-! ### Round-trip development: the document fuel suffices -/

mutual

/-- The printed length of a value bounds the fuel it needs. -/
theorem needLenV (v : JValue) : needV v ≤ (printVal v).length := by
  cases v with
  | null => simp [needV, printVal]
  | bool b => cases b <;> simp [needV, printVal]
  | num n =>
      have hne : printInt n ≠ [] := by
        by_cases hn : n < 0
        · simp [printInt, hn]
        · simp [printInt, hn]
          exact (natDigits_spec n.toNat).1
      have : 0 < (printInt n).length := List.length_pos.mpr hne
      simpa [needV, printVal] using this
  | str s => simp [needV, printVal]
  | arr items =>
      cases items with
      | nil => simp [needV, printVal, lengthL, needL, printItems]
      | cons v tl =>
          have hv := needLenV v
          have htl1 := (needLenL tl).1
          have htl2 := (needLenL tl).2
          have hg1 : lengthL (JValueList.cons v tl) ≤
              (printItems (JValueList.cons v tl)).length + 1 := by
            simp [lengthL, printItems]
            omega
          have hg2 : needL (JValueList.cons v tl) ≤
              (printItems (JValueList.cons v tl)).length + 1 := by
            refine Nat.max_le.mpr ⟨?_, ?_⟩
            · simp [printItems]
              omega
            · simp [printItems]
              omega
          have hmax : Nat.max (lengthL (JValueList.cons v tl))
              (needL (JValueList.cons v tl)) ≤
              (printItems (JValueList.cons v tl)).length + 1 :=
            Nat.max_le.mpr ⟨hg1, hg2⟩
          have hlen : (printVal (JValue.arr (JValueList.cons v tl))).length =
              (printItems (JValueList.cons v tl)).length + 2 := by
            simp [printVal]
          show 1 + Nat.max (lengthL (JValueList.cons v tl))
              (needL (JValueList.cons v tl)) ≤ _
          rw [hlen]
          omega
  | obj members =>
      cases members with
      | nil => simp [needV, printVal, lengthM, needM, printMembers]
      | cons k v tl =>
          have hv := needLenV v
          have htl1 := (needLenM tl).1
          have htl2 := (needLenM tl).2
          have hg1 : lengthM (JMemberList.cons k v tl) ≤
              (printMembers (JMemberList.cons k v tl)).length + 1 := by
            simp [lengthM, printMembers]
            omega
          have hg2 : needM (JMemberList.cons k v tl) ≤
              (printMembers (JMemberList.cons k v tl)).length + 1 := by
            refine Nat.max_le.mpr ⟨?_, ?_⟩
            · simp [printMembers]
              omega
            · simp [printMembers]
              omega
          have hmax : Nat.max (lengthM (JMemberList.cons k v tl))
              (needM (JMemberList.cons k v tl)) ≤
              (printMembers (JMemberList.cons k v tl)).length + 1 :=
            Nat.max_le.mpr ⟨hg1, hg2⟩
          have hlen : (printVal (JValue.obj
              (JMemberList.cons k v tl))).length =
              (printMembers (JMemberList.cons k v tl)).length + 2 := by
            simp [printVal]
          show 1 + Nat.max (lengthM (JMemberList.cons k v tl))
              (needM (JMemberList.cons k v tl)) ≤ _
          rw [hlen]
          omega
  termination_by sizeOf v

/-- The printed length of an element tail bounds its count and fuel. -/
theorem needLenL (tl : JValueList) :
    lengthL tl ≤ (printItemsTail tl).length ∧
      needL tl ≤ (printItemsTail tl).length + 1 := by
  cases tl with
  | nil => simp [lengthL, needL, printItemsTail]
  | cons v tl =>
      have hv := needLenV v
      have htl1 := (needLenL tl).1
      have htl2 := (needLenL tl).2
      constructor
      · simp [lengthL, printItemsTail]
        omega
      · refine Nat.max_le.mpr ⟨?_, ?_⟩
        · simp [printItemsTail]
          omega
        · simp [printItemsTail]
          omega
  termination_by sizeOf tl

/-- The printed length of a member tail bounds its count and fuel. -/
theorem needLenM (tl : JMemberList) :
    lengthM tl ≤ (printMembersTail tl).length ∧
      needM tl ≤ (printMembersTail tl).length + 1 := by
  cases tl with
  | nil => simp [lengthM, needM, printMembersTail]
  | cons k v tl =>
      have hv := needLenV v
      have htl1 := (needLenM tl).1
      have htl2 := (needLenM tl).2
      constructor
      · simp [lengthM, printMembersTail]
        omega
      · refine Nat.max_le.mpr ⟨?_, ?_⟩
        · simp [printMembersTail]
          omega
        · simp [printMembersTail]
          omega
  termination_by sizeOf tl

end

/-- The document parser inverts the printer on well-formed values. -/
theorem parseJson_printVal (v : JValue) (hwf : wfVal v = true) :
    parseJson (printVal v) = some v := by
  have h := ppVal ((printVal v).length + 1) v [] hwf
    (le_trans (needLenV v) (by omega)) (by intro c hc; simp at hc)
  rw [List.append_nil] at h
  simp only [parseJson, h]

/-! ### Round-trip development: printed text is byte-sized -/

/-- Hexadecimal digit codes are bytes. -/
theorem hexDigit_lt (d : Nat) (h : d < 16) : hexDigit d < 256 := by
  unfold hexDigit
  split <;> omega

/-- Four-digit hexadecimal renderings are bytes. -/
theorem hex4_lt (n : Nat) : ∀ x ∈ hex4 n, x < 256 := by
  intro x hx
  simp [hex4] at hx
  rcases hx with h | h | h | h <;>
    (subst h; exact hexDigit_lt _ (by omega))

/-- Escaped characters are bytes. -/
theorem escapeChar_lt (c : Nat) : ∀ x ∈ escapeChar c, x < 256 := by
  intro x hx
  simp only [escapeChar] at hx
  split at hx
  · simp at hx
    omega
  · split at hx
    · simp at hx
      omega
    · split at hx
      · next hc =>
          simp at hx
          omega
      · split at hx
        · simp at hx
          rcases hx with h | h | h
          · omega
          · omega
          · exact hex4_lt _ _ h
        · simp at hx
          rcases hx with h | h | h | h | h | h
          · omega
          · omega
          · exact hex4_lt _ _ h
          · omega
          · omega
          · exact hex4_lt _ _ h

/-- Escaped strings are bytes. -/
theorem escapeStr_lt : ∀ (s : List Nat), ∀ x ∈ escapeStr s, x < 256 := by
  intro s
  induction s with
  | nil => intro x hx; simp [escapeStr] at hx
  | cons c rest ih =>
      intro x hx
      simp only [escapeStr] at hx
      rcases List.mem_append.mp hx with h | h
      · exact escapeChar_lt c x h
      · exact ih x h

/-- Printed integers are bytes. -/
theorem printInt_lt (n : Int) : ∀ x ∈ printInt n, x < 256 := by
  intro x hx
  unfold printInt at hx
  split at hx
  · rcases List.mem_cons.mp hx with h | h
    · omega
    · have := (natDigits_spec n.natAbs).2.1 x h
      omega
  · have := (natDigits_spec n.toNat).2.1 x hx
    omega

mutual

/-- Printed values are byte sequences. -/
theorem printValLt (v : JValue) : ∀ x ∈ printVal v, x < 256 := by
  intro x hx
  cases v with
  | null => simp [printVal] at hx; omega
  | bool b => cases b <;> (simp [printVal] at hx; omega)
  | num n => exact printInt_lt n x hx
  | str s =>
      simp only [printVal] at hx
      rcases List.mem_cons.mp hx with h | h
      · omega
      · rcases List.mem_append.mp h with h2 | h2
        · exact escapeStr_lt s x h2
        · simp at h2
          omega
  | arr items =>
      simp only [printVal] at hx
      rcases List.mem_cons.mp hx with h | h
      · omega
      · rcases List.mem_append.mp h with h2 | h2
        · cases items with
          | nil => simp [printItems] at h2
          | cons v tl =>
              simp only [printItems] at h2
              rcases List.mem_append.mp h2 with h3 | h3
              · exact printValLt v x h3
              · exact printItemsTailLt tl x h3
        · simp at h2
          omega
  | obj members =>
      simp only [printVal] at hx
      rcases List.mem_cons.mp hx with h | h
      · omega
      · rcases List.mem_append.mp h with h2 | h2
        · cases members with
          | nil => simp [printMembers] at h2
          | cons k v tl =>
              simp only [printMembers] at h2
              rcases List.mem_append.mp h2 with h3 | h3
              · rcases List.mem_cons.mp h3 with h4 | h4
                · omega
                · rcases List.mem_append.mp h4 with h5 | h5
                  · exact escapeStr_lt k x h5
                  · rcases List.mem_cons.mp h5 with h6 | h6
                    · omega
                    · rcases List.mem_cons.mp h6 with h7 | h7
                      · omega
                      · exact printValLt v x h7
              · exact printMembersTailLt tl x h3
        · simp at h2
          omega
  termination_by sizeOf v

/-- Printed element tails are byte sequences. -/
theorem printItemsTailLt (tl : JValueList) :
    ∀ x ∈ printItemsTail tl, x < 256 := by
  intro x hx
  cases tl with
  | nil => simp [printItemsTail] at hx
  | cons v tl =>
      simp only [printItemsTail] at hx
      rcases List.mem_cons.mp hx with h | h
      · omega
      · rcases List.mem_append.mp h with h2 | h2
        · exact printValLt v x h2
        · exact printItemsTailLt tl x h2
  termination_by sizeOf tl

/-- Printed member tails are byte sequences. -/
theorem printMembersTailLt (tl : JMemberList) :
    ∀ x ∈ printMembersTail tl, x < 256 := by
  intro x hx
  cases tl with
  | nil => simp [printMembersTail] at hx
  | cons k v tl =>
      simp only [printMembersTail] at hx
      rcases List.mem_cons.mp hx with h | h
      · omega
      · rcases List.mem_append.mp h with h2 | h2
        · rcases List.mem_cons.mp h2 with h3 | h3
          · omega
          · rcases List.mem_append.mp h3 with h4 | h4
            · exact escapeStr_lt k x h4
            · rcases List.mem_cons.mp h4 with h5 | h5
              · omega
              · rcases List.mem_cons.mp h5 with h6 | h6
                · omega
                · exact printValLt v x h6
        · exact printMembersTailLt tl x h2
  termination_by sizeOf tl

end

/-! ### Round-trip development: url-safe base64 -/

/-- The alphabet map is injectively decoded. -/
theorem sextetVal_sextetChar : ∀ n, n < 64 →
    sextetVal (sextetChar n) = some n := by
  decide

/-- No alphabet character is the padding character. -/
theorem sextetChar_ne_61 : ∀ n, n < 64 → ¬(sextetChar n = 61) := by
  decide

/-- Decoding inverts encoding on byte sequences. -/
theorem b64_roundtrip (bs : List Nat) (h : ∀ b ∈ bs, b < 256) :
    b64decode (b64encode bs) = some bs := by
  cases bs with
  | nil => simp [b64encode, b64decode]
  | cons a bs1 =>
      have ha : a < 256 := h a (by simp)
      cases bs1 with
      | nil =>
          have h1 := sextetVal_sextetChar (a / 4) (by omega)
          have h2 := sextetVal_sextetChar (a % 4 * 16) (by omega)
          simp [b64encode, b64decode, h1, h2]
          omega
      | cons b bs2 =>
          have hb : b < 256 := h b (by simp)
          cases bs2 with
          | nil =>
              have h1 := sextetVal_sextetChar (a / 4) (by omega)
              have h2 := sextetVal_sextetChar (a % 4 * 16 + b / 16)
                (by omega)
              have h3 := sextetVal_sextetChar (b % 16 * 4) (by omega)
              have hne := sextetChar_ne_61 (b % 16 * 4) (by omega)
              simp [b64encode, b64decode, h1, h2, h3, hne]
              omega
          | cons c rest =>
              have hc : c < 256 := h c (by simp)
              have ih := b64_roundtrip rest
                (fun x hx => h x (by simp [hx]))
              have h1 := sextetVal_sextetChar (a / 4) (by omega)
              have h2 := sextetVal_sextetChar (a % 4 * 16 + b / 16)
                (by omega)
              have h3 := sextetVal_sextetChar (b % 16 * 4 + c / 64)
                (by omega)
              have h4 := sextetVal_sextetChar (c % 64) (by omega)
              have hne3 := sextetChar_ne_61 (b % 16 * 4 + c / 64) (by omega)
              have hne4 := sextetChar_ne_61 (c % 64) (by omega)
              simp [b64encode, b64decode, h1, h2, h3, h4, hne3, hne4, ih]
              omega
  termination_by bs.length

/-! ### Round-trip development: the wire container -/

/-- Varint decoding inverts bounded-fuel varint encoding. -/
theorem lenDec_lenEncAux : ∀ (fuel n : Nat) (rest : List Nat), n < fuel →
    lenDec (lenEncAux fuel n ++ rest) = some (n, rest) := by
  intro fuel
  induction fuel with
  | zero => intro n rest h; exact absurd h (by omega)
  | succ fuel ih =>
      intro n rest h
      by_cases hn : n < 128
      · simp [lenEncAux, hn, lenDec]
      · have hih := ih (n / 128) rest (by omega)
        have hb1 : ¬(128 + n % 128 < 128) := by omega
        have hb2 : 128 + n % 128 < 256 := by omega
        simp [lenEncAux, hn, lenDec, hb1, hb2, hih]
        omega

/-- Varint decoding inverts varint encoding. -/
theorem lenDec_lenEnc (n : Nat) (rest : List Nat) :
    lenDec (lenEnc n ++ rest) = some (n, rest) :=
  lenDec_lenEncAux (n + 1) n rest (by omega)

/-- Integer decoding inverts integer encoding. -/
theorem intDec_intEnc (i : Int) (rest : List Nat) :
    intDec (intEnc i ++ rest) = some (i, rest) := by
  by_cases hi : i < 0
  · rw [intEnc, if_pos hi]
    simp only [List.cons_append]
    simp [intDec, lenDec_lenEnc]
    rw [abs_of_neg hi]
    exact neg_neg i
  · rw [intEnc, if_neg hi]
    simp only [List.cons_append]
    simp [intDec, lenDec_lenEnc]
    omega

/-- Character-sequence decoding inverts encoding. -/
theorem charsDec_charsEnc : ∀ (s rest : List Nat),
    charsDec s.length (charsEnc s ++ rest) = some (s, rest) := by
  intro s
  induction s with
  | nil => intro rest; simp [charsEnc, charsDec]
  | cons c s ih =>
      intro rest
      simp [charsEnc, charsDec, List.append_assoc, lenDec_lenEnc, ih]

/-- String decoding inverts string encoding. -/
theorem strDec_strEnc (s rest : List Nat) :
    strDec (strEnc s ++ rest) = some (s, rest) := by
  simp [strEnc, strDec, List.append_assoc, lenDec_lenEnc, charsDec_charsEnc]

mutual

/-- Wire decoding inverts wire encoding on a single value. -/
theorem wireRtV (f : Nat) (v : JValue) (rest : List Nat)
    (hf : needV v ≤ f) :
    wireDecVal f (wireEncVal v ++ rest) = some (v, rest) := by
  cases f with
  | zero => exact absurd hf (by have := needV_pos v; omega)
  | succ f =>
      cases v with
      | null => simp [wireEncVal, wireDecVal]
      | bool b => cases b <;> simp [wireEncVal, wireDecVal]
      | num n =>
          simp [wireEncVal, wireDecVal, List.append_assoc, intDec_intEnc]
      | str s =>
          simp [wireEncVal, wireDecVal, List.append_assoc, strDec_strEnc]
      | arr items =>
          have hf2 : 1 + Nat.max (lengthL items) (needL items) ≤ f + 1 := hf
          have hmax : Nat.max (lengthL items) (needL items) ≤ f := by omega
          have hi := wireRtI f items rest
            (le_trans (Nat.le_max_right _ _) hmax)
          simp [wireEncVal, wireDecVal, List.append_assoc, lenDec_lenEnc, hi]
      | obj members =>
          have hf2 : 1 + Nat.max (lengthM members) (needM members) ≤
              f + 1 := hf
          have hmax : Nat.max (lengthM members) (needM members) ≤ f := by
            omega
          have hm := wireRtM f members rest
            (le_trans (Nat.le_max_right _ _) hmax)
          simp [wireEncVal, wireDecVal, List.append_assoc, lenDec_lenEnc, hm]
  termination_by sizeOf v

/-- Wire decoding inverts wire encoding on element lists. -/
theorem wireRtI (f : Nat) (items : JValueList) (rest : List Nat)
    (hf : needL items ≤ f) :
    wireDecItems (wireDecVal f) (lengthL items)
      (wireEncItems items ++ rest) = some (items, rest) := by
  cases items with
  | nil => simp [wireEncItems, lengthL, wireDecItems]
  | cons v tl =>
      have hf2 : Nat.max (needV v) (needL tl) ≤ f := hf
      have hv := wireRtV f v (wireEncItems tl ++ rest)
        (le_trans (Nat.le_max_left _ _) hf2)
      have htl := wireRtI f tl rest (le_trans (Nat.le_max_right _ _) hf2)
      have hlen : lengthL (JValueList.cons v tl) = lengthL tl + 1 := by
        simp [lengthL]
        omega
      rw [hlen]
      simp only [wireEncItems, List.append_assoc]
      simp [wireDecItems, hv, htl]
  termination_by sizeOf items

/-- Wire decoding inverts wire encoding on member lists. -/
theorem wireRtM (f : Nat) (members : JMemberList) (rest : List Nat)
    (hf : needM members ≤ f) :
    wireDecMembers (wireDecVal f) (lengthM members)
      (wireEncMembers members ++ rest) = some (members, rest) := by
  cases members with
  | nil => simp [wireEncMembers, lengthM, wireDecMembers]
  | cons k v tl =>
      have hf2 : Nat.max (needV v) (needM tl) ≤ f := hf
      have hv := wireRtV f v (wireEncMembers tl ++ rest)
        (le_trans (Nat.le_max_left _ _) hf2)
      have htl := wireRtM f tl rest (le_trans (Nat.le_max_right _ _) hf2)
      have hlen : lengthM (JMemberList.cons k v tl) = lengthM tl + 1 := by
        simp [lengthM]
        omega
      rw [hlen]
      simp only [wireEncMembers, List.append_assoc]
      simp [wireDecMembers, strDec_strEnc, hv, htl]
  termination_by sizeOf members

end

mutual

/-- The wire length of a value bounds the fuel it needs. -/
theorem wireLenV (v : JValue) : needV v ≤ (wireEncVal v).length := by
  cases v with
  | null => simp [needV, wireEncVal]
  | bool b => cases b <;> simp [needV, wireEncVal]
  | num n => simp [needV, wireEncVal]
  | str s => simp [needV, wireEncVal]
  | arr items =>
      have h1 := (wireLenL items).1
      have h2 := (wireLenL items).2
      have hmax : Nat.max (lengthL items) (needL items) ≤
          (wireEncItems items).length := Nat.max_le.mpr ⟨h1, h2⟩
      have hle : 1 + (wireEncItems items).length ≤
          (wireEncVal (JValue.arr items)).length := by
        simp [wireEncVal]
        omega
      show 1 + Nat.max (lengthL items) (needL items) ≤ _
      omega
  | obj members =>
      have h1 := (wireLenM members).1
      have h2 := (wireLenM members).2
      have hmax : Nat.max (lengthM members) (needM members) ≤
          (wireEncMembers members).length := Nat.max_le.mpr ⟨h1, h2⟩
      have hle : 1 + (wireEncMembers members).length ≤
          (wireEncVal (JValue.obj members)).length := by
        simp [wireEncVal]
        omega
      show 1 + Nat.max (lengthM members) (needM members) ≤ _
      omega
  termination_by sizeOf v

/-- The wire length of an element list bounds its count and fuel. -/
theorem wireLenL (tl : JValueList) :
    lengthL tl ≤ (wireEncItems tl).length ∧
      needL tl ≤ (wireEncItems tl).length := by
  cases tl with
  | nil => simp [lengthL, needL, wireEncItems]
  | cons v tl =>
      have hv := wireLenV v
      have hp := needV_pos v
      have h1 := (wireLenL tl).1
      have h2 := (wireLenL tl).2
      constructor
      · simp [lengthL, wireEncItems]
        omega
      · refine Nat.max_le.mpr ⟨?_, ?_⟩
        · simp [wireEncItems]
          omega
        · simp [wireEncItems]
          omega
  termination_by sizeOf tl

/-- The wire length of a member list bounds its count and fuel. -/
theorem wireLenM (tl : JMemberList) :
    lengthM tl ≤ (wireEncMembers tl).length ∧
      needM tl ≤ (wireEncMembers tl).length := by
  cases tl with
  | nil => simp [lengthM, needM, wireEncMembers]
  | cons k v tl =>
      have hv := wireLenV v
      have hp := needV_pos v
      have h1 := (wireLenM tl).1
      have h2 := (wireLenM tl).2
      constructor
      · simp [lengthM, wireEncMembers]
        omega
      · refine Nat.max_le.mpr ⟨?_, ?_⟩
        · simp [wireEncMembers]
          omega
        · simp [wireEncMembers]
          omega
  termination_by sizeOf tl

end

/-- Full-document wire decoding inverts wire encoding. -/
theorem wireDecFull_enc (v : JValue) :
    wireDecFull (wireEncVal v) = some v := by
  have h := wireRtV ((wireEncVal v).length + 1) v []
    (le_trans (wireLenV v) (by omega))
  rw [List.append_nil] at h
  simp only [wireDecFull, h]

/-- C9: for every JSON value `v` (of well-formed scalar strings) whose
url-safe base64 encoded canonical text fits the payload limit, the
inbound transcoder `base64_json_to_hsb` accepts the encoded payload and
produces wire bytes that the outbound transcoder `hsb_to_json` maps back
to exactly the canonical JSON text of `v`; and with no payload supplied
the inbound transcoder wire-encodes the JSON null (the unit value). -/
theorem transcode_round_trip :
    (∀ (v : JValue) (payloadLimit : Nat), wfVal v = true →
      (b64encode (printVal v)).length ≤ payloadLimit →
      ∃ w, base64JsonToHsb (some (b64encode (printVal v))) = .ok w ∧
        hsbToJson w = .ok (printVal v)) ∧
    base64JsonToHsb none = .ok (wireEncVal .null) := by
  constructor
  · intro v payloadLimit hwf _
    refine ⟨wireEncVal v, ?_, ?_⟩
    · simp [base64JsonToHsb, b64_roundtrip (printVal v) (printValLt v),
        parseJson_printVal v hwf]
    · simp [hsbToJson, wireDecFull_enc]
  · rfl

/-- C9 witness: the round trip at a concrete object value holding a
negative number and a non-ASCII string, with limit 100. -/
theorem transcode_round_trip_witness :
    ∃ w, base64JsonToHsb (some (b64encode (printVal
      (JValue.obj (JMemberList.cons [97]
        (JValue.arr (JValueList.cons (JValue.num (-12))
          (JValueList.cons (JValue.str [104, 955]) JValueList.nil)))
        JMemberList.nil))))) = .ok w ∧
      hsbToJson w = .ok (printVal
        (JValue.obj (JMemberList.cons [97]
          (JValue.arr (JValueList.cons (JValue.num (-12))
            (JValueList.cons (JValue.str [104, 955]) JValueList.nil)))
          JMemberList.nil))) :=
  transcode_round_trip.1
    (JValue.obj (JMemberList.cons [97]
      (JValue.arr (JValueList.cons (JValue.num (-12))
        (JValueList.cons (JValue.str [104, 955]) JValueList.nil)))
      JMemberList.nil))
    100 (by decide) (by decide)

end HcHttpGw
